import Mathlib

/-!
Verification development for the `torrent_compress_recovery` tool.

Shallow embedding conventions:
* Python `bytes` are modeled as `List Nat` (each element a byte value < 256).
* Python `str` is modeled as Lean `String`; UTF-8 decoding with replacement
  (`errors="replace"`) is modeled by `decodeReplace`.
* Python `int` is modeled as `Int` (arbitrary precision on the wire; the
  places where Python would raise are modeled with `Except Unit`).
* Filesystem paths are lists of components (`List String`); the filesystem
  is an explicit state record threaded through the recovery functions.
* External child processes (gzip, pigz, bzip2, ...) and the in-process
  compression libraries are opaque collaborators of the core; they are
  modeled as an oracle record `ToolEnv` whose functions return the bytes
  the corresponding invocation would produce (`none` models a failed or
  missing tool).  `hashlib.sha1`/`hashlib.sha256` are modeled by real
  SHA-1 / SHA-256 implementations below.
-/

set_option maxRecDepth 100000

namespace TCR

-- Equality of embedded run results, used to evaluate concrete executions.
deriving instance DecidableEq for Except

/-- Python bytes: a list of byte values. -/
abbrev Bytes := List Nat

/-- Truncation to 32 bits. -/
def w32 (n : Nat) : Nat := n % 4294967296

/-- 32-bit rotate left (argument assumed < 2^32). -/
def rotl32 (x s : Nat) : Nat := ((x <<< s) % 4294967296) ||| (x >>> (32 - s))

/-- 32-bit rotate right (argument assumed < 2^32). -/
def rotr32 (x s : Nat) : Nat := (x >>> s) ||| ((x <<< (32 - s)) % 4294967296)

/-- Big-endian encoding of `v` on `k` bytes (`int.to_bytes(k, "big")`). -/
def beBytes : Nat → Nat → Bytes
  | 0, _ => []
  | k + 1, v => beBytes k (v / 256) ++ [v % 256]

/-- Little-endian encoding of `v` on `k` bytes (`int.to_bytes(k, "little")`).
Python raises OverflowError when `v` does not fit; the embedding truncates,
and theorems that depend on this field carry the u32 bound the spec's data
model assigns to it. -/
def leBytes : Nat → Nat → Bytes
  | 0, _ => []
  | k + 1, v => v % 256 :: leBytes k (v / 256)

/-- Little-endian value of a byte string (`int.from_bytes(bs, "little")`). -/
def leNat (bs : Bytes) : Nat := bs.foldr (fun b acc => b + 256 * acc) 0

/-- Group a byte list into big-endian 32-bit words, four bytes at a time. -/
def bytesToWords : Bytes → List Nat
  | b0 :: b1 :: b2 :: b3 :: rest => (((b0 * 256 + b1) * 256 + b2) * 256 + b3) :: bytesToWords rest
  | _ => []

/-- Merkle-Damgård padding shared by SHA-1 and SHA-256: append 0x80, zero
bytes to 56 mod 64, then the bit length as a big-endian 64-bit integer. -/
def shaPad (msg : Bytes) : Bytes :=
  msg ++ [128] ++ List.replicate ((55 + 64 - msg.length % 64) % 64) 0 ++ beBytes 8 (msg.length * 8)

/-- SHA-1 round function f_t. -/
def sha1F (t b c d : Nat) : Nat :=
  if t < 20 then (b &&& c) ||| ((b ^^^ 4294967295) &&& d)
  else if t < 40 then b ^^^ c ^^^ d
  else if t < 60 then (b &&& c) ||| (b &&& d) ||| (c &&& d)
  else b ^^^ c ^^^ d

/-- SHA-1 round constants K_t. -/
def sha1K (t : Nat) : Nat :=
  if t < 20 then 1518500249
  else if t < 40 then 1859775393
  else if t < 60 then 2400959708
  else 3395469782

/-- Message-schedule extension for SHA-1, keeping the schedule reversed:
the head of `rev` is the most recent word W[t-1]. -/
def sha1ExtendRev (rev : List Nat) : Nat → List Nat
  | 0 => rev
  | n + 1 =>
    sha1ExtendRev
      (rotl32 ((rev.getD 2 0) ^^^ (rev.getD 7 0) ^^^ (rev.getD 13 0) ^^^ (rev.getD 15 0)) 1 :: rev) n

/-- One SHA-1 round: state is (t, a, b, c, d, e). -/
def sha1Round (st : Nat × Nat × Nat × Nat × Nat × Nat) (w : Nat) : Nat × Nat × Nat × Nat × Nat × Nat :=
  match st with
  | (t, a, b, c, d, e) =>
    (t + 1, w32 (rotl32 a 5 + sha1F t b c d + e + sha1K t + w), a, rotl32 b 30, c, d)

/-- Compress one 64-byte SHA-1 block into the running state. -/
def sha1Block (h : List Nat) (block : Bytes) : List Nat :=
  let ws := (sha1ExtendRev (bytesToWords block).reverse 64).reverse
  match ws.foldl sha1Round (0, h.getD 0 0, h.getD 1 0, h.getD 2 0, h.getD 3 0, h.getD 4 0) with
  | (_, a, b, c, d, e) =>
    [w32 (h.getD 0 0 + a), w32 (h.getD 1 0 + b), w32 (h.getD 2 0 + c),
     w32 (h.getD 3 0 + d), w32 (h.getD 4 0 + e)]

/-- Fold the SHA-1 compression over all 64-byte blocks.  The fuel parameter
(any value at least the number of blocks) keeps the recursion structural so
that the kernel can evaluate digests. -/
def sha1Blocks : Nat → List Nat → Bytes → List Nat
  | 0, h, _ => h
  | fuel + 1, h, msg =>
    if msg = [] then h else sha1Blocks fuel (sha1Block h (msg.take 64)) (msg.drop 64)

/-- SHA-1 digest of a byte string (20 bytes). -/
def sha1Hash (msg : Bytes) : Bytes :=
  ((sha1Blocks (shaPad msg).length
      [1732584193, 4023233417, 2562383102, 271733878, 3285377520] (shaPad msg)).map
    (beBytes 4)).flatten

/-- SHA-256 round constants. -/
def sha256K : List Nat :=
  [1116352408, 1899447441, 3049323471, 3921009573, 961987163, 1508970993, 2453635748, 2870763221,
   3624381080, 310598401, 607225278, 1426881987, 1925078388, 2162078206, 2614888103, 3248222580,
   3835390401, 4022224774, 264347078, 604807628, 770255983, 1249150122, 1555081692, 1996064986,
   2554220882, 2821834349, 2952996808, 3210313671, 3336571891, 3584528711, 113926993, 338241895,
   666307205, 773529912, 1294757372, 1396182291, 1695183700, 1986661051, 2177026350, 2456956037,
   2730485921, 2820302411, 3259730800, 3345764771, 3516065817, 3600352804, 4094571909, 275423344,
   430227734, 506948616, 659060556, 883997877, 958139571, 1322822218, 1537002063, 1747873779,
   1955562222, 2024104815, 2227730452, 2361852424, 2428436474, 2756734187, 3204031479, 3329325298]

/-- Small sigma_0 of the SHA-256 schedule. -/
def sha256s0 (x : Nat) : Nat := rotr32 x 7 ^^^ rotr32 x 18 ^^^ (x >>> 3)

/-- Small sigma_1 of the SHA-256 schedule. -/
def sha256s1 (x : Nat) : Nat := rotr32 x 17 ^^^ rotr32 x 19 ^^^ (x >>> 10)

/-- Message-schedule extension for SHA-256, reversed as in `sha1ExtendRev`. -/
def sha256ExtendRev (rev : List Nat) : Nat → List Nat
  | 0 => rev
  | n + 1 =>
    sha256ExtendRev
      (w32 (sha256s1 (rev.getD 1 0) + rev.getD 6 0 + sha256s0 (rev.getD 14 0) + rev.getD 15 0) :: rev) n

/-- One SHA-256 round: state is (a, b, c, d, e, f, g, h), input (K_t, W_t). -/
def sha256Round (st : Nat × Nat × Nat × Nat × Nat × Nat × Nat × Nat) (kw : Nat × Nat) :
    Nat × Nat × Nat × Nat × Nat × Nat × Nat × Nat :=
  match st, kw with
  | (a, b, c, d, e, f, g, h), (k, w) =>
    let t1 := w32 (h + (rotr32 e 6 ^^^ rotr32 e 11 ^^^ rotr32 e 25) +
      ((e &&& f) ^^^ ((e ^^^ 4294967295) &&& g)) + k + w)
    let t2 := w32 ((rotr32 a 2 ^^^ rotr32 a 13 ^^^ rotr32 a 22) +
      ((a &&& b) ^^^ (a &&& c) ^^^ (b &&& c)))
    (w32 (t1 + t2), a, b, c, w32 (d + t1), e, f, g)

/-- Compress one 64-byte SHA-256 block into the running state. -/
def sha256Block (h : List Nat) (block : Bytes) : List Nat :=
  let ws := (sha256ExtendRev (bytesToWords block).reverse 48).reverse
  match (sha256K.zip ws).foldl sha256Round
      (h.getD 0 0, h.getD 1 0, h.getD 2 0, h.getD 3 0, h.getD 4 0, h.getD 5 0, h.getD 6 0, h.getD 7 0) with
  | (a, b, c, d, e, f, g, hh) =>
    [w32 (h.getD 0 0 + a), w32 (h.getD 1 0 + b), w32 (h.getD 2 0 + c), w32 (h.getD 3 0 + d),
     w32 (h.getD 4 0 + e), w32 (h.getD 5 0 + f), w32 (h.getD 6 0 + g), w32 (h.getD 7 0 + hh)]

/-- Fold the SHA-256 compression over all 64-byte blocks, with fuel as in
`sha1Blocks`. -/
def sha256Blocks : Nat → List Nat → Bytes → List Nat
  | 0, h, _ => h
  | fuel + 1, h, msg =>
    if msg = [] then h else sha256Blocks fuel (sha256Block h (msg.take 64)) (msg.drop 64)

/-- SHA-256 digest of a byte string (32 bytes). -/
def sha256Hash (msg : Bytes) : Bytes :=
  ((sha256Blocks (shaPad msg).length [1779033703, 3144134277, 1013904242, 2773480762,
      1359893119, 2600822924, 528734635, 1541459225] (shaPad msg)).map (beBytes 4)).flatten

/-- Embeds `sha1_piece` (defined identically in the gzip, bz2, xz and zst
modules): the SHA-1 digest of `data`. -/
def sha1_piece (data : Bytes) : Bytes := sha1Hash data

/-- Embeds `sha256_piece` (defined identically in the gzip, bz2, xz and zst
modules): the SHA-256 digest of `data`. -/
def sha256_piece (data : Bytes) : Bytes := sha256Hash data

/-- The Unicode replacement character U+FFFD. -/
def replChar : Char := Char.ofNat 65533

/-- Is a byte a UTF-8 continuation byte (0x80..0xBF)? -/
def isCont (b : Nat) : Bool := 128 ≤ b && b ≤ 191

/-- UTF-8 decoding with replacement, modeling Python `bytes.decode("utf-8",
errors="replace")`. On an invalid sequence the lead byte is replaced and
decoding resumes at the next byte (CPython may group several invalid bytes
into one replacement; no claim depends on the granularity). -/
def utf8DecodeLoop : Nat → Bytes → List Char
  | 0, _ => []
  | _, [] => []
  | fuel + 1, b :: rest =>
    if b < 128 then Char.ofNat b :: utf8DecodeLoop fuel rest
    else if 194 ≤ b && b ≤ 223 then
      match rest with
      | c1 :: rest1 =>
        if isCont c1 then Char.ofNat ((b - 192) * 64 + (c1 - 128)) :: utf8DecodeLoop fuel rest1
        else replChar :: utf8DecodeLoop fuel (c1 :: rest1)
      | [] => [replChar]
    else if 224 ≤ b && b ≤ 239 then
      match rest with
      | c1 :: c2 :: rest2 =>
        if (if b = 224 then 160 ≤ c1 && c1 ≤ 191
            else if b = 237 then 128 ≤ c1 && c1 ≤ 159
            else isCont c1) && isCont c2 then
          Char.ofNat (((b - 224) * 64 + (c1 - 128)) * 64 + (c2 - 128)) :: utf8DecodeLoop fuel rest2
        else replChar :: utf8DecodeLoop fuel (c1 :: c2 :: rest2)
      | _ => replChar :: utf8DecodeLoop fuel rest
    else if 240 ≤ b && b ≤ 244 then
      match rest with
      | c1 :: c2 :: c3 :: rest3 =>
        if (if b = 240 then 144 ≤ c1 && c1 ≤ 191
            else if b = 244 then 128 ≤ c1 && c1 ≤ 143
            else isCont c1) && isCont c2 && isCont c3 then
          Char.ofNat ((((b - 240) * 64 + (c1 - 128)) * 64 + (c2 - 128)) * 64 + (c3 - 128))
            :: utf8DecodeLoop fuel rest3
        else replChar :: utf8DecodeLoop fuel (c1 :: c2 :: c3 :: rest3)
      | _ => replChar :: utf8DecodeLoop fuel rest
    else replChar :: utf8DecodeLoop fuel rest

/-- Python `bytes.decode("utf-8", errors="replace")` (also used to model the
strict-then-replace sequence in `_bstr`, which is equivalent on all inputs). -/
def decodeReplace (bs : Bytes) : String := String.mk (utf8DecodeLoop bs.length bs)

/-- ASCII byte-string literals such as `b"info"` (all dict keys used by the
source are ASCII, where UTF-8 bytes and code points coincide). -/
def asciiBytes (s : String) : Bytes := s.toList.map Char.toNat

/-- A filesystem path, as its list of components. `pathlib` joining and
normalization drop empty and `.` segments; an absolute `rel_path` (which
would reanchor the join in Python) is modeled as a plain join. -/
abbrev PathC := List String

/-- Split a character list at every occurrence of `c` (`str.split(sep)` for
a one-character separator; also the behavior of `String.splitOn`). -/
def splitChar (c : Char) : List Char → List (List Char)
  | [] => [[]]
  | x :: rest =>
    match splitChar c rest with
    | [] => [[]]
    | g :: gs => if x = c then [] :: g :: gs else (x :: g) :: gs

/-- String suffix test (`str.endswith`), kept kernel-computable. -/
def strEndsWith (s suf : String) : Bool :=
  List.isPrefixOf suf.toList.reverse s.toList.reverse

/-- Character membership in a string (`"c" in s` for one character). -/
def strContains (s : String) (c : Char) : Bool := s.toList.contains c

/-- Remove the last `n` characters (`s[:-n]` for `0 < n ≤ len(s)`). -/
def strDropRight (s : String) (n : Nat) : String :=
  String.mk (s.toList.take (s.toList.length - n))

/-- Concatenate with `/` separators (`"/".join(parts)`). -/
def joinSlash : List String → String
  | [] => ""
  | [p] => p
  | p :: rest => p ++ "/" ++ joinSlash rest

/-- Components contributed by a path string under `pathlib` joining. -/
def strComponents (s : String) : List String :=
  ((splitChar '/' s.toList).map (fun l => String.mk l)).filter (fun c => c != "" && c != ".")

/-- Embeds `Path(s).name`: the final nonempty component, or the empty
string when there is none. -/
def pathName (s : String) : String := ((strComponents s).getLast?).getD ""

/-- A decoded bencode value (the result of `bencodepy.decode`): byte string,
integer, list, or dictionary keyed by raw byte strings. -/
inductive Bencode where
  | int (i : Int)
  | str (s : Bytes)
  | list (l : List Bencode)
  | dict (d : List (Bytes × Bencode))

/-- Dictionary lookup on a decoded bencode dict (`info.get(key)`). -/
def bGet (d : List (Bytes × Bencode)) (k : Bytes) : Option Bencode :=
  match d with
  | [] => none
  | (k2, v) :: rest => if k2 = k then some v else bGet rest k

/-- Embeds `_bstr`: fetch `key` and UTF-8-decode it when it is a byte string
(strict decoding falling back to replacement is equivalent to replacement). -/
def _bstr (d : List (Bytes × Bencode)) (k : Bytes) : Option String :=
  match bGet d k with
  | some (.str v) => some (decodeReplace v)
  | _ => none

/-- Embeds the `TorrentFile` dataclass.  `offset` is typed non-optional in
the source dataclass. -/
structure TorrentFile where
  rel_path : String
  length : Option Int
  offset : Int
  sha1 : Option Bytes := none
  attr : Option String := none
  symlink_path : Option (List String) := none
deriving DecidableEq, Repr

/-- Embeds the `TorrentMeta` dataclass. -/
structure TorrentMeta where
  name : String
  files : List TorrentFile
  piece_length : Int
  pieces : List Bytes
  version : String
deriving DecidableEq, Repr

/-- Embeds the version-detection block of `parse_torrent` (bencode.py
lines 60-68). -/
def detectVersion (info : List (Bytes × Bencode)) : String :=
  let v :=
    if (bGet info (asciiBytes "meta version")).isSome &&
        (match bGet info (asciiBytes "meta version") with
         | some (.int 2) => true
         | _ => false) then "v2"
    else if (bGet info (asciiBytes "piece layers")).isSome then "v2"
    else "v1"
  if v = "v2" &&
      ((bGet info (asciiBytes "pieces")).isSome ||
       (bGet info (asciiBytes "piece length")).isSome) then "hybrid"
  else v

/-- Embeds the `length` extraction of a files entry: kept only when the
value is an integer. -/
def lengthField (d : List (Bytes × Bencode)) : Option Int :=
  match bGet d (asciiBytes "length") with
  | some (.int i) => some i
  | _ => none

/-- Embeds the BEP47 `sha1` extraction: kept only when it is a byte string
of exactly 20 bytes. -/
def sha1Field (d : List (Bytes × Bencode)) : Option Bytes :=
  match bGet d (asciiBytes "sha1") with
  | some (.str s) => if s.length = 20 then some s else none
  | _ => none

/-- Embeds the BEP47 `attr` extraction: decoded with replacement when it is
a byte string. -/
def attrField (d : List (Bytes × Bencode)) : Option String :=
  match bGet d (asciiBytes "attr") with
  | some (.str _) => _bstr d (asciiBytes "attr")
  | _ => none

/-- Embeds the BEP47 `symlink path` extraction: byte-string parts are
decoded, other parts silently skipped. -/
def symlinkField (d : List (Bytes × Bencode)) : Option (List String) :=
  match bGet d (asciiBytes "symlink path") with
  | some (.list ps) =>
    some (ps.filterMap (fun p =>
      match p with
      | .str b => some (decodeReplace b)
      | _ => none))
  | _ => none

/-- Decode the `path` parts of a files entry; `none` models the `ok = False`
skip when some part is not a byte string. -/
def partsToStrings : List Bencode → Option (List String)
  | [] => some []
  | .str b :: rest => (partsToStrings rest).map (fun l => decodeReplace b :: l)
  | _ => none

/-- Embeds the per-entry validation of the `for fe in fentries` loop of
`parse_torrent`: `some tf` when the entry is kept (with `offset` the running
offset), `none` when the entry is silently dropped (not a dict, missing or
empty `path`, or a non-bytes path part). -/
def fileEntryParse (offset : Int) (fe : Bencode) : Option TorrentFile :=
  match fe with
  | .dict d =>
    match bGet d (asciiBytes "path") with
    | some (.list parts) =>
      if parts.isEmpty then none
      else
        match partsToStrings parts with
        | none => none
        | some p =>
          some { rel_path := joinSlash p, length := lengthField d, offset := offset,
                 sha1 := sha1Field d, attr := attrField d, symlink_path := symlinkField d }
    | _ => none
  | _ => none

/-- One iteration of the `for fe in fentries` loop: append the kept entry
and advance the offset by `length or 0` (the kept entry's `length` is
exactly the entry's `length` field). -/
def fileEntryStep (st : List TorrentFile × Int) (fe : Bencode) : List TorrentFile × Int :=
  match fileEntryParse st.2 fe with
  | none => st
  | some tf => (st.1 ++ [tf], st.2 + tf.length.getD 0)

/-- The `name` binding of `parse_torrent`: `_bstr(info, b"name") or stem`
(Python `or` falls back on an absent name and on an empty decoded name). -/
def torrentName (info : List (Bytes × Bencode)) (stem : String) : String :=
  match _bstr info (asciiBytes "name") with
  | some s => if s = "" then stem else s
  | none => stem

/-- The pieces comprehension of `parse_torrent`: the 20-byte slices of the
raw pieces string. -/
def piecesOf (pieces_raw : Bytes) : List Bytes :=
  (List.range (pieces_raw.length / 20)).map (fun k => (pieces_raw.drop (20 * k)).take 20)

/-- Embeds `parse_torrent` from the point after `bencodepy.decode`: `root`
is the decoded tree and `stem` models `Path(torrent_path).stem`.  File
reading and `bencodepy` are external collaborators; every `BencodeError`
raise is modeled as `.error ()`. -/
def parse_torrent (root : Bencode) (stem : String) : Except Unit TorrentMeta :=
  match root with
  | .dict rootd =>
    match bGet rootd (asciiBytes "info") with
    | some (.dict info) =>
      match bGet info (asciiBytes "piece length") with
      | some (.int piece_length) =>
        match bGet info (asciiBytes "pieces") with
        | some (.str pieces_raw) =>
          if pieces_raw.length % 20 = 0 then
            match bGet info (asciiBytes "files") with
            | some (.list fentries) =>
              .ok { name := torrentName info stem,
                    files := (fentries.foldl fileEntryStep ([], 0)).1,
                    piece_length := piece_length,
                    pieces := piecesOf pieces_raw,
                    version := detectVersion info }
            | some _ => .error ()
            | none =>
              .ok { name := torrentName info stem,
                    files := [{ rel_path := torrentName info stem,
                                length := lengthField info, offset := 0,
                                sha1 := sha1Field info, attr := attrField info,
                                symlink_path := none }],
                    piece_length := piece_length,
                    pieces := piecesOf pieces_raw,
                    version := detectVersion info }
          else .error ()
        | _ => .error ()
      | _ => .error ()
    | _ => .error ()
  | _ => .error ()

/-- Sum of the lengths of a list of torrent files, an absent length counting
as zero (the Σ of the spec's offset invariant). -/
def sumLens : List TorrentFile → Int
  | [] => 0
  | tf :: rest => tf.length.getD 0 + sumLens rest

/-- Metadata of one regular file: contents and modification time. -/
structure FSEntry where
  content : Bytes
  mtime : Int
deriving DecidableEq, Repr

/-- The filesystem state threaded through the recovery planner: regular
files (path, entry) in discovery order, existing directories, and a clock
that orders the mtimes of newly written files. -/
structure FS where
  files : List (PathC × FSEntry)
  dirs : List PathC
  clock : Int
deriving DecidableEq, Repr

/-- Content and mtime of a regular file, when present. -/
def fsLookup (fs : FS) (p : PathC) : Option FSEntry :=
  (fs.files.find? (fun e => decide (e.1 = p))).map Prod.snd

/-- Is `p` a regular file? -/
def fsIsFile (fs : FS) (p : PathC) : Bool := (fsLookup fs p).isSome

/-- Is `p` a directory? -/
def fsIsDir (fs : FS) (p : PathC) : Bool := fs.dirs.any (fun d => decide (d = p))

/-- Embeds `p.exists()`: true for regular files and directories. -/
def fsExistsAny (fs : FS) (p : PathC) : Bool := fsIsFile fs p || fsIsDir fs p

/-- Embeds `p.stat()`: the entry of a regular file; a directory stats with
size 0 and mtime 0; a missing path raises (`.error ()`). -/
def fsStat (fs : FS) (p : PathC) : Except Unit FSEntry :=
  match fsLookup fs p with
  | some e => .ok e
  | none => if fsIsDir fs p then .ok { content := [], mtime := 0 } else .error ()

/-- Embeds `p.read_bytes()` / `p.open("rb")`: contents of a regular file;
a missing path or a directory raises. -/
def fsReadFile (fs : FS) (p : PathC) : Except Unit Bytes :=
  match fsLookup fs p with
  | some e => .ok e.content
  | none => .error ()

/-- Create or replace the regular file at `p`. -/
def fsSetFile (fs : FS) (p : PathC) (e : FSEntry) : FS :=
  { fs with files := (fs.files.filter (fun q => !decide (q.1 = p))) ++ [(p, e)] }

/-- Embeds `dst.write_bytes(data)`: the new file's mtime is the current
clock, which then advances. -/
def fsWriteFile (fs : FS) (p : PathC) (data : Bytes) : FS :=
  { fsSetFile fs p { content := data, mtime := fs.clock } with clock := fs.clock + 1 }

/-- Embeds `dst.unlink()` at call sites guarded by `dst.exists()`. -/
def fsUnlink (fs : FS) (p : PathC) : FS :=
  { fs with files := fs.files.filter (fun q => !decide (q.1 = p)) }

/-- The proper ancestors of `p`, innermost last: the directories that
`p.parent.mkdir(parents=True, exist_ok=True)` creates. -/
def parentsOf (p : PathC) : List PathC :=
  (List.range p.dropLast.length).map (fun k => p.dropLast.take (k + 1))

/-- Embeds `dst.parent.mkdir(parents=True, exist_ok=True)`.  Components that
already exist are left alone (the POSIX error when an ancestor exists as a
regular file is out of the modeled state space and treated as a no-op). -/
def fsMkdirParents (fs : FS) (dst : PathC) : FS :=
  { fs with dirs := fs.dirs ++ (parentsOf dst).filter (fun d => !fsExistsAny fs d) }

/-- Embeds `str(src)` as it appears in child-process argument vectors. -/
def pathStr (p : PathC) : String := joinSlash p

/-- Oracle for the external collaborators of candidate generation:
`run argv` is the stdout of a successful `subprocess.run(argv)` and `none`
models `FileNotFoundError` / nonzero exit; `runInput` is the same for the
invocations that pass the source bytes on stdin; `pyGzip` is in-process
`gzip.GzipFile(filename="", mtime=...)` compression; `pyBz2` is in-process
`bz2.compress(..., compresslevel=...)`, with `none` modeling the caught
`OSError`/`ValueError`. -/
structure ToolEnv where
  run : List String → Option Bytes
  runInput : List String → Bytes → Option Bytes
  pyGzip : Bytes → Nat → Bytes
  pyBz2 : Bytes → Int → Option Bytes

/-- Embeds the `GzipHeader` dataclass. -/
structure GzipHeader where
  mtime : Nat
  os : Nat
  flags : Nat
  extra : Option Bytes := none
  fname : Option Bytes := none
  fcomment : Option Bytes := none
deriving DecidableEq, Repr

/-- Embeds `data.find(b"\x00", pos)` (with `none` for the -1 result). -/
def findZeroFrom (data : Bytes) (pos : Nat) : Option Nat :=
  ((data.drop pos).findIdx? (fun b => decide (b = 0))).map (fun i => i + pos)

/-- Embeds `parse_gzip_header`, applied to the file's contents (the source
reads the first 256 bytes and parses the RFC 1952 header fields). -/
def parse_gzip_header (content : Bytes) : Option GzipHeader :=
  let data := content.take 256
  if data.length < 10 then none
  else if !decide (data.take 2 = [31, 139]) then none
  else if !decide (data.getD 2 0 = 8) then none
  else
    let flags := data.getD 3 0
    let mtime := leNat ((data.drop 4).take 4)
    let os := data.getD 9 0
    let pos0 := 10
    let st1 :=
      if flags &&& 4 ≠ 0 then
        let xlen := leNat ((data.drop pos0).take 2)
        (some ((data.drop (pos0 + 2)).take xlen), pos0 + 2 + xlen)
      else (none, pos0)
    match (if flags &&& 8 ≠ 0 then
             match findZeroFrom data st1.2 with
             | none => none
             | some e => some (some ((data.drop st1.2).take (e - st1.2)), e + 1)
           else some (none, st1.2)) with
    | none => none
    | some st2 =>
      match (if flags &&& 16 ≠ 0 then
               match findZeroFrom data st2.2 with
               | none => none
               | some e => some (some ((data.drop st2.2).take (e - st2.2)), e + 1)
             else some (none, st2.2)) with
      | none => none
      | some st3 =>
        some { mtime := mtime, os := os, flags := flags,
               extra := st1.1, fname := st2.1, fcomment := st3.1 }

/-- Replace the bytes of `l` at positions `[a, b)` with `repl` (bytearray
index/slice assignment and slice concatenation in the source). -/
def splice (l : Bytes) (a b : Nat) (repl : Bytes) : Bytes := l.take a ++ repl ++ l.drop b

/-- The fixed-field rewrites of `patch_gzip_header` (gzip.py lines 106-114):
flags byte, little-endian u32 mtime, XFL zeroed, OS byte. -/
def patchGzipFixed (data : Bytes) (h : GzipHeader) : Bytes :=
  splice (splice (splice (splice data 3 4 [h.flags % 256]) 4 8 (leBytes 4 h.mtime)) 8 9 [0])
    9 10 [h.os % 256]

/-- The FEXTRA block logic of `patch_gzip_header` (gzip.py lines 116-125),
on the running (patched bytes, position) state: runs only when bit 2 of the
supplied header's flags is set; inserts the new block (replacing the two
bytes at the position) when `extra` is present, deletes the length-prefixed
extent there when it is absent. -/
def patchGzipExtra (h : GzipHeader) (st : Bytes × Nat) : Bytes × Nat :=
  if h.flags &&& 4 ≠ 0 then
    match h.extra with
    | some e =>
      (st.1.take st.2 ++ leBytes 2 e.length ++ e ++ st.1.drop (st.2 + 2), st.2 + 2 + e.length)
    | none =>
      (st.1.take st.2 ++ st.1.drop (st.2 + 2 + leNat ((st.1.drop st.2).take 2)), st.2)
  else st

/-- The FNAME block logic of `patch_gzip_header` (gzip.py lines 127-137):
runs only when bit 3 is set; inserts the NUL-terminated name when `fname`
is present, otherwise deletes through the first NUL at or after the
position (no change when there is none), setting the position to the end. -/
def patchGzipName (h : GzipHeader) (st : Bytes × Nat) : Bytes × Nat :=
  if h.flags &&& 8 ≠ 0 then
    match h.fname with
    | some f => (st.1.take st.2 ++ (f ++ [0]) ++ st.1.drop st.2, st.2 + (f.length + 1))
    | none =>
      match findZeroFrom st.1 st.2 with
      | some e =>
        (st.1.take st.2 ++ st.1.drop (e + 1), (st.1.take st.2 ++ st.1.drop (e + 1)).length)
      | none => st
  else st

/-- The FCOMMENT block logic of `patch_gzip_header` (gzip.py lines 139-147):
runs only when bit 4 is set; inserts the NUL-terminated comment when
`fcomment` is present, otherwise deletes through the first NUL at or after
the position (no change when there is none). -/
def patchGzipComment (h : GzipHeader) (st : Bytes × Nat) : Bytes :=
  if h.flags &&& 16 ≠ 0 then
    match h.fcomment with
    | some f => st.1.take st.2 ++ (f ++ [0]) ++ st.1.drop st.2
    | none =>
      match findZeroFrom st.1 st.2 with
      | some e => st.1.take st.2 ++ st.1.drop (e + 1)
      | none => st.1
  else st.1

/-- Embeds `patch_gzip_header` (gzip.py lines 101-148): rewrite flags,
mtime, XFL, OS at the fixed offsets, then run the FEXTRA, FNAME and
FCOMMENT stages in order from position 10. -/
def patch_gzip_header (data : Bytes) (h : GzipHeader) : Bytes :=
  if data.length < 10 then data
  else patchGzipComment h (patchGzipName h (patchGzipExtra h (patchGzipFixed data h, 10)))

/-- Embeds Python slicing `data[:i]`, which counts from the end when `i` is
negative. -/
def pyTake (data : Bytes) (i : Int) : Bytes :=
  if 0 ≤ i then data.take i.toNat else data.take ((data.length : Int) + i).toNat

/-- Embeds the label construction `f"{tool} -{level}" + ...` of
`generate_gzip_candidates`. -/
def gzipLabel (tool : String) (level : Nat) (noName rsync : Bool) : String :=
  tool ++ " -" ++ toString level ++ (if noName then " -n" else "") ++
    (if rsync then " --rsyncable" else "")

/-- One iteration of the innermost loop of `generate_gzip_candidates`:
build the argv, run the tool through the oracle, and on success patch and
label the produced bytes (`none` models the swallowed tool failure). -/
def gzipToolCandidate (env : ToolEnv) (src : PathC) (header : Option GzipHeader)
    (tool : String) (level : Nat) (noName rsync : Bool) : Option (String × Bytes) :=
  let cmd := [tool, "-" ++ toString level] ++ (if noName then ["-n"] else []) ++
    (if rsync then ["--rsyncable"] else []) ++ ["-c", pathStr src]
  (env.run cmd).map (fun data =>
    (gzipLabel tool level noName rsync,
     match header with
     | some h => patch_gzip_header data h
     | none => data))

/-- The nested tool/level/`-n`/`--rsyncable` loops of
`generate_gzip_candidates`, in source iteration order. -/
def gzipBruteCandidates (env : ToolEnv) (src : PathC) (header : Option GzipHeader)
    (tools : List String) : List (String × Bytes) :=
  tools.flatMap (fun tool =>
    ([1, 6, 9] : List Nat).flatMap (fun level =>
      [true, false].flatMap (fun noName =>
        (if tool = "gzip" then [false, true] else [false]).filterMap (fun rsync =>
          gzipToolCandidate env src header tool level noName rsync))))

/-- Embeds `generate_gzip_candidates`.  Child processes go through the
`ToolEnv` oracle; the in-process header-match compression is `pyGzip`; the
temporary file used there lives outside the modeled tree and is deleted on
all exit paths. -/
def generate_gzip_candidates (env : ToolEnv) (fs : FS) (src : PathC)
    (header : Option GzipHeader) : Except Unit (List (String × Bytes)) :=
  match fsReadFile fs src with
  | .error e => .error e
  | .ok src_bytes =>
    let base :=
      match header with
      | some h => [("header_match", patch_gzip_header (env.pyGzip src_bytes h.mtime) h)]
      | none => []
    let tools := if (env.run ["pigz", "--version"]).isSome then ["gzip", "pigz"] else ["gzip"]
    .ok (base ++ gzipBruteCandidates env src header tools)

/-- Selects the hash function from the `hash_algo` string (the first line of
`find_matching_candidate`). -/
def hashFnFor (algo : String) : Bytes → Bytes :=
  if algo = "sha1" then sha1_piece else sha256_piece

/-- The loop of `find_matching_candidate`. -/
def findMatchLoop (hashFn : Bytes → Bytes) (target : Bytes) (pl : Int) :
    List (String × Bytes) → Option (String × Bytes)
  | [] => none
  | (label, data) :: rest =>
    if (data.length : Int) < pl then findMatchLoop hashFn target pl rest
    else if hashFn (pyTake data pl) = target then some (label, data)
    else findMatchLoop hashFn target pl rest

/-- Embeds `find_matching_candidate`, defined identically in the gzip, bz2,
xz and zst modules: the first candidate of length at least `piece_length`
whose first-piece hash equals the target. -/
def find_matching_candidate (candidates : List (String × Bytes)) (target_piece_hash : Bytes)
    (piece_length : Int) (hash_algo : String) : Option (String × Bytes) :=
  findMatchLoop (hashFnFor hash_algo) target_piece_hash piece_length candidates

/-- Embeds the `Bzip2Header` dataclass. -/
structure Bzip2Header where
  level : Int
  block_size : Int
deriving DecidableEq, Repr

/-- Embeds `parse_bzip2_header` applied to the file's contents (the source
reads the first 4 bytes: magic `BZh` plus an ASCII level digit). -/
def parse_bzip2_header (content : Bytes) : Option Bzip2Header :=
  let data := content.take 4
  if data.length < 4 then none
  else if !decide (data.take 3 = [66, 90, 104]) then none
  else
    let lb := data.getD 3 0
    if lb < 49 || 57 < lb then none
    else
      let level : Int := (lb - 48 : Nat)
      some { level := level, block_size := level * 100000 }

/-- Embeds `generate_bzip2_candidates`: an in-process `bz2.compress`
header-match candidate (errors swallowed), then bzip2/pbzip2 at levels
1, 6, 9; bzip2 candidates are not header-patched. -/
def generate_bzip2_candidates (env : ToolEnv) (fs : FS) (src : PathC)
    (header : Option Bzip2Header) : Except Unit (List (String × Bytes)) :=
  match fsReadFile fs src with
  | .error e => .error e
  | .ok src_bytes =>
    let base :=
      match header with
      | some h =>
        match env.pyBz2 src_bytes h.level with
        | some data => [("header_match", data)]
        | none => []
      | none => []
    let tools := if (env.run ["pbzip2", "-h"]).isSome then ["bzip2", "pbzip2"] else ["bzip2"]
    let rest := tools.flatMap (fun tool =>
      ([1, 6, 9] : List Nat).filterMap (fun level =>
        let cmd := [tool, "-" ++ toString level, "-c", pathStr src]
        (env.run cmd).map (fun data => (tool ++ " -" ++ toString level, data))))
    .ok (base ++ rest)

/-- Embeds the `XzHeader` dataclass. -/
structure XzHeader where
  flags : Nat
  has_crc64 : Bool
deriving DecidableEq, Repr

/-- Embeds `parse_xz_header` applied to the file's contents (first 12 bytes:
magic, stream flags; the CRC bytes the source reads are dead values). -/
def parse_xz_header (content : Bytes) : Option XzHeader :=
  let data := content.take 12
  if data.length < 12 then none
  else if !decide (data.take 6 = [253, 55, 122, 88, 90, 0]) then none
  else
    let flags := leNat ((data.drop 6).take 2)
    some { flags := flags, has_crc64 := flags &&& 1 ≠ 0 }

/-- Embeds `patch_xz_header`: rewrite the stream flags at offsets 6-7
(CRC32 deliberately left stale). -/
def patch_xz_header (data : Bytes) (h : XzHeader) : Bytes :=
  if data.length < 12 || !decide (data.take 6 = [253, 55, 122, 88, 90, 0]) then data
  else splice data 6 8 (leBytes 2 h.flags)

/-- Embeds `_generate_header_match_candidate` of xz.py: plain `xz` run fed
the source bytes on stdin, patched to the reference header. -/
def xzHeaderMatch (env : ToolEnv) (src_bytes : Bytes) (h : XzHeader) :
    Option (String × Bytes) :=
  match env.runInput ["xz", "-c", "--stdout"] src_bytes with
  | some data => some ("header_match", patch_xz_header data h)
  | none => none

/-- Embeds `generate_xz_candidates`: header-match first, then xz/pixz at
levels 0, 6, 9, each patched to the reference header when one exists. -/
def generate_xz_candidates (env : ToolEnv) (fs : FS) (src : PathC)
    (header : Option XzHeader) : Except Unit (List (String × Bytes)) :=
  match fsReadFile fs src with
  | .error e => .error e
  | .ok src_bytes =>
    let base :=
      match header with
      | some h =>
        match xzHeaderMatch env src_bytes h with
        | some c => [c]
        | none => []
      | none => []
    let tools := if (env.run ["pixz", "--version"]).isSome then ["xz", "pixz"] else ["xz"]
    let rest := tools.flatMap (fun tool =>
      ([0, 6, 9] : List Nat).filterMap (fun level =>
        let cmd := [tool, "-" ++ toString level, "-c", "--stdout", pathStr src]
        (env.run cmd).map (fun data =>
          (tool ++ " -" ++ toString level,
           match header with
           | some h => patch_xz_header data h
           | none => data))))
    .ok (base ++ rest)

/-- Embeds the `ZstdHeader` dataclass. -/
structure ZstdHeader where
  window_log : Nat
  single_segment : Bool
  has_checksum : Bool
  has_dict_id : Bool
deriving DecidableEq, Repr

/-- Embeds `parse_zstd_header` applied to the file's contents (first 6
bytes: magic plus a 2-byte little-endian frame header). -/
def parse_zstd_header (content : Bytes) : Option ZstdHeader :=
  let data := content.take 6
  if data.length < 6 then none
  else if !decide (data.take 4 = [40, 181, 47, 253]) then none
  else
    let fh := leNat ((data.drop 4).take 2)
    some { window_log := fh &&& 15, single_segment := fh &&& 32 ≠ 0,
           has_checksum := fh &&& 16 ≠ 0, has_dict_id := fh &&& 8 ≠ 0 }

/-- Embeds `patch_zstd_header`: rebuild the 2-byte frame header from the
reference header's fields and splice it at offsets 4-5. -/
def patch_zstd_header (data : Bytes) (h : ZstdHeader) : Bytes :=
  if data.length < 6 || !decide (data.take 4 = [40, 181, 47, 253]) then data
  else
    let fh := (h.window_log &&& 15) ||| (if h.single_segment then 32 else 0) |||
      (if h.has_checksum then 16 else 0) ||| (if h.has_dict_id then 8 else 0)
    splice data 4 6 (leBytes 2 fh)

/-- Embeds `_generate_header_match_candidate` of zst.py. -/
def zstdHeaderMatch (env : ToolEnv) (src_bytes : Bytes) (h : ZstdHeader) :
    Option (String × Bytes) :=
  match env.runInput ["zstd", "-c", "--stdout"] src_bytes with
  | some data => some ("header_match", patch_zstd_header data h)
  | none => none

/-- Embeds `generate_zstd_candidates`: header-match first, then zstd/pzstd
at levels 1, 3, 22, each patched to the reference header when one exists. -/
def generate_zstd_candidates (env : ToolEnv) (fs : FS) (src : PathC)
    (header : Option ZstdHeader) : Except Unit (List (String × Bytes)) :=
  match fsReadFile fs src with
  | .error e => .error e
  | .ok src_bytes =>
    let base :=
      match header with
      | some h =>
        match zstdHeaderMatch env src_bytes h with
        | some c => [c]
        | none => []
      | none => []
    let tools := if (env.run ["pzstd", "--version"]).isSome then ["zstd", "pzstd"] else ["zstd"]
    let rest := tools.flatMap (fun tool =>
      ([1, 3, 22] : List Nat).filterMap (fun level =>
        let cmd := [tool, "-" ++ toString level, "-c", "--stdout", pathStr src]
        (env.run cmd).map (fun data =>
          (tool ++ " -" ++ toString level,
           match header with
           | some h => patch_zstd_header data h
           | none => data))))
    .ok (base ++ rest)

/-- Python `max(paths, key=mtime)` loop: keep the first entry whose mtime is
strictly greater than the best so far; any `stat` may raise. -/
def maxByMtimeLoop (fs : FS) (best : PathC) (bestM : Int) : List PathC → Except Unit PathC
  | [] => .ok best
  | y :: ys =>
    match fsStat fs y with
    | .error e => .error e
    | .ok ey =>
      if bestM < ey.mtime then maxByMtimeLoop fs y ey.mtime ys
      else maxByMtimeLoop fs best bestM ys

/-- Python `max(paths, key=mtime)`; the empty case (a `ValueError` in
Python) is unreachable at both call sites, which guard non-emptiness. -/
def maxByMtime (fs : FS) (l : List PathC) : Except Unit (Option PathC) :=
  match l with
  | [] => .ok none
  | x :: xs =>
    match fsStat fs x with
    | .error e => .error e
    | .ok ex =>
      match maxByMtimeLoop fs x ex.mtime xs with
      | .error e => .error e
      | .ok p => .ok (some p)

/-- The stat size used inside the `sized` filter of `choose_candidate`; the
preceding `p.exists()` conjunct makes the default arm unreachable there. -/
def fsSizeD (fs : FS) (p : PathC) : Int :=
  match fsStat fs p with
  | .ok e => (e.content.length : Int)
  | .error _ => 0

/-- Embeds `choose_candidate` (core.py lines 39-48): prefer the unique path
of the expected size, then the latest-mtime path of that subset, then the
latest-mtime path overall; an empty list yields `none`. -/
def choose_candidate (fs : FS) (candidates : List PathC) (expected_size : Option Int) :
    Except Unit (Option PathC) :=
  if candidates.isEmpty then .ok none
  else
    match expected_size with
    | some sz =>
      let sized := candidates.filter (fun p => fsExistsAny fs p && decide (fsSizeD fs p = sz))
      if sized.length = 1 then .ok sized.head?
      else if 1 < sized.length then maxByMtime fs sized
      else maxByMtime fs candidates
    | none => maxByMtime fs candidates

/-- Embeds `copy_file` (core.py lines 51-55): dry-run returns immediately;
otherwise parents are created and `shutil.copy2` duplicates content and
modification time. -/
def copy_file (fs : FS) (src dst : PathC) (dry_run : Bool) : Except Unit FS :=
  if dry_run then .ok fs
  else
    let fs1 := fsMkdirParents fs dst
    match fsLookup fs1 src with
    | some e => .ok (fsSetFile fs1 dst e)
    | none => .error ()

/-- Embeds `iter_files`: `os.walk` yields every regular file strictly below
`root`, in filesystem listing order. -/
def iter_files (fs : FS) (root : PathC) : List PathC :=
  (fs.files.map Prod.fst).filter (fun p => List.isPrefixOf root p && decide (p ≠ root))

/-- Insert a path under its basename, preserving first-seen key order and
per-key discovery order (Python dict plus `setdefault(...).append(...)`). -/
def indexInsert : List (String × List PathC) → String → PathC → List (String × List PathC)
  | [], k, v => [(k, [v])]
  | (k2, vs) :: rest, k, v =>
    if k2 = k then (k2, vs ++ [v]) :: rest else (k2, vs) :: indexInsert rest k v

/-- Embeds `idx.get(name, [])`. -/
def indexGet (idx : List (String × List PathC)) (k : String) : List PathC :=
  match idx with
  | [] => []
  | (k2, vs) :: rest => if k2 = k then vs else indexGet rest k

/-- Embeds `build_basename_index` (core.py lines 27-36). -/
def build_basename_index (fs : FS) (roots : List PathC) : List (String × List PathC) :=
  roots.foldl (fun idx r =>
    if fsExistsAny fs r then
      (iter_files fs r).foldl (fun idx2 p =>
        if fsIsFile fs p then indexInsert idx2 (p.getLast?.getD "") p else idx2) idx
    else idx) []

/-- Embeds the `Result` dataclass of `recover`'s counters. -/
structure Result where
  recovered : Nat
  gzipped : Nat
  bzipped : Nat
  xzipped : Nat
  zstipped : Nat
  skipped : Nat
  missing : Nat
deriving DecidableEq, Repr

/-- Embeds `_should_skip_file` (core.py lines 69-83): padding attribute
(`tf.attr and "p" in tf.attr`), unknown extension, or existing destination
without `overwrite`. -/
def _should_skip_file (fs : FS) (tf : TorrentFile) (dst : PathC) (overwrite : Bool) : Bool :=
  if (match tf.attr with
      | some a => decide (a ≠ "") && strContains a 'p'
      | none => false) then true
  else if !(strEndsWith tf.rel_path ".gz" || strEndsWith tf.rel_path ".bz2" ||
      strEndsWith tf.rel_path ".xz" || strEndsWith tf.rel_path ".zst") then true
  else if fsExistsAny fs dst && !overwrite then true
  else false

/-- Embeds `_extract_raw_name` (core.py lines 86-108), including the inner
`.bzX`/`.pbzX` level-tag stripping for `.bz2` names. -/
def _extract_raw_name (expected_name rel_path : String) : String :=
  if strEndsWith rel_path ".gz" then strDropRight expected_name 3
  else if strEndsWith expected_name ".bz2" then
    let without_bz2 := strDropRight expected_name 4
    if strEndsWith without_bz2 ".bz1" || strEndsWith without_bz2 ".bz6" ||
        strEndsWith without_bz2 ".bz9" || strEndsWith without_bz2 ".pbz1" ||
        strEndsWith without_bz2 ".pbz6" || strEndsWith without_bz2 ".pbz9" then
      if strEndsWith without_bz2 ".bz1" || strEndsWith without_bz2 ".bz6" ||
          strEndsWith without_bz2 ".bz9" then
        strDropRight without_bz2 4
      else strDropRight without_bz2 5
    else without_bz2
  else if strEndsWith rel_path ".xz" then strDropRight expected_name 3
  else if strEndsWith rel_path ".zst" then strDropRight expected_name 4
  else expected_name

/-- Python list indexing `l[i]` with wrap-around for negative indices;
`none` models `IndexError`. -/
def pyListGet (l : List Bytes) (i : Int) : Option Bytes :=
  if 0 ≤ i then l.get? i.toNat
  else if 0 ≤ i + (l.length : Int) then l.get? (i + (l.length : Int)).toNat
  else none

/-- Embeds `_get_piece_info` (core.py lines 111-118).  `tf.offset` is typed
non-optional in the dataclass, so only the `length` None-test is live;
`ZeroDivisionError` on a zero `piece_length` and `IndexError` on an index
below `-len(pieces)` are modeled as `.error ()`. -/
def _get_piece_info (tf : TorrentFile) (meta : TorrentMeta) (piece_length : Int) :
    Except Unit (Option (Int × Bytes)) :=
  if tf.length = none then .ok none
  else if piece_length = 0 then .error ()
  else
    let start_piece_index := Int.fdiv tf.offset piece_length
    if (meta.pieces.length : Int) ≤ start_piece_index then .ok none
    else
      match pyListGet meta.pieces start_piece_index with
      | some hsh => .ok (some (start_piece_index, hsh))
      | none => .error ()

/-- Embeds `_try_partial_recovery` (core.py lines 121-138): direct reuse of
the chosen partial when its size reaches `piece_length` and its first piece
SHA-1-hashes to the target (`sha1_piece` unconditionally). -/
def _try_partial_recovery (fs : FS) (tf : TorrentFile) (expected_name : String)
    (partial_index : List (String × List PathC)) (target_piece_hash : Bytes)
    (piece_length : Int) (dst : PathC) (overwrite dry_run : Bool) :
    Except Unit (Bool × FS) :=
  match choose_candidate fs (indexGet partial_index expected_name) tf.length with
  | .error e => .error e
  | .ok none => .ok (false, fs)
  | .ok (some chosen) =>
    match fsStat fs chosen with
    | .error e => .error e
    | .ok st =>
      if piece_length ≤ (st.content.length : Int) then
        match fsReadFile fs chosen with
        | .error e => .error e
        | .ok content =>
          if sha1_piece (pyTake content piece_length) = target_piece_hash then
            let fs1 := if !dry_run && fsExistsAny fs dst && overwrite then fsUnlink fs dst else fs
            match copy_file fs1 chosen dst dry_run with
            | .error e => .error e
            | .ok fs2 => .ok (true, fs2)
          else .ok (false, fs)
      else .ok (false, fs)

/-- The reference header returned by `_parse_header_from_partial`, tagged by
format.  Python carries it duck-typed; the parse and generate dispatches use
the same extension tests, so the tag always matches the consuming plugin. -/
inductive FmtHeader where
  | gz (h : GzipHeader)
  | bz (h : Bzip2Header)
  | xz (h : XzHeader)
  | zst (h : ZstdHeader)
deriving DecidableEq, Repr

/-- Embeds `_parse_header_from_partial` (core.py lines 141-157). -/
def _parse_header_from_partial (fs : FS) (tf : TorrentFile) (expected_name : String)
    (partial_index : List (String × List PathC)) (is_gz : Bool) :
    Except Unit (Option FmtHeader) :=
  match choose_candidate fs (indexGet partial_index expected_name) tf.length with
  | .error e => .error e
  | .ok none => .ok none
  | .ok (some chosen) =>
    if is_gz then
      match fsReadFile fs chosen with
      | .error e => .error e
      | .ok c => .ok ((parse_gzip_header c).map FmtHeader.gz)
    else if strEndsWith tf.rel_path ".bz2" then
      match fsReadFile fs chosen with
      | .error e => .error e
      | .ok c => .ok ((parse_bzip2_header c).map FmtHeader.bz)
    else if strEndsWith tf.rel_path ".xz" then
      match fsReadFile fs chosen with
      | .error e => .error e
      | .ok c => .ok ((parse_xz_header c).map FmtHeader.xz)
    else if strEndsWith tf.rel_path ".zst" then
      match fsReadFile fs chosen with
      | .error e => .error e
      | .ok c => .ok ((parse_zstd_header c).map FmtHeader.zst)
    else .ok none

/-- The duck-typed reference header at a gzip dispatch site (the tag always
matches there, since parse and generate dispatch on the same tests). -/
def asGzHeader : Option FmtHeader → Option GzipHeader
  | some (.gz h) => some h
  | _ => none

/-- The duck-typed reference header at a bzip2 dispatch site. -/
def asBzHeader : Option FmtHeader → Option Bzip2Header
  | some (.bz h) => some h
  | _ => none

/-- The duck-typed reference header at an xz dispatch site. -/
def asXzHeader : Option FmtHeader → Option XzHeader
  | some (.xz h) => some h
  | _ => none

/-- The duck-typed reference header at a zstd dispatch site. -/
def asZstHeader : Option FmtHeader → Option ZstdHeader
  | some (.zst h) => some h
  | _ => none

/-- The format dispatch shared verbatim by `_try_sha1_match` and
`_try_brute_force_recovery`; `none` models the `else: return False, 0` arm
(no known extension).  `match_func` is the same `find_matching_candidate`
for all four modules. -/
def candidatesFor (env : ToolEnv) (fs : FS) (is_gz : Bool) (rel_path : String) (src : PathC)
    (header : Option FmtHeader) : Except Unit (Option (List (String × Bytes))) :=
  if is_gz then (generate_gzip_candidates env fs src (asGzHeader header)).map some
  else if strEndsWith rel_path ".bz2" then
    (generate_bzip2_candidates env fs src (asBzHeader header)).map some
  else if strEndsWith rel_path ".xz" then
    (generate_xz_candidates env fs src (asXzHeader header)).map some
  else if strEndsWith rel_path ".zst" then
    (generate_zstd_candidates env fs src (asZstHeader header)).map some
  else .ok none

/-- The `for raw_path in raw_index.get(raw_name, [])` loop of
`_try_sha1_match`: size gate, full-file SHA-1 gate, then candidate search;
a match writes (unless dry-run) after unconditionally creating parents. -/
def sha1MatchLoop (env : ToolEnv) (fs : FS) (tf : TorrentFile) (header : Option FmtHeader)
    (target_piece_hash : Bytes) (piece_length : Int) (hash_algo : String) (dst : PathC)
    (overwrite dry_run is_gz : Bool) : List PathC → Except Unit (Bool × Nat × FS)
  | [] => .ok (false, 0, fs)
  | raw_path :: rest =>
    match fsStat fs raw_path with
    | .error e => .error e
    | .ok st =>
      if some (st.content.length : Int) = tf.length then
        match fsReadFile fs raw_path with
        | .error e => .error e
        | .ok content =>
          if some (sha1_piece content) = tf.sha1 then
            match candidatesFor env fs is_gz tf.rel_path raw_path header with
            | .error e => .error e
            | .ok none => .ok (false, 0, fs)
            | .ok (some candidates) =>
              match find_matching_candidate candidates target_piece_hash piece_length hash_algo with
              | some m =>
                let fs1 := if !dry_run && fsExistsAny fs dst && overwrite then fsUnlink fs dst else fs
                let fs2 := fsMkdirParents fs1 dst
                let fs3 := if !dry_run then fsWriteFile fs2 dst m.2 else fs2
                if is_gz || strEndsWith tf.rel_path ".bz2" || strEndsWith tf.rel_path ".xz" ||
                    strEndsWith tf.rel_path ".zst" then .ok (true, 1, fs3)
                else
                  sha1MatchLoop env fs tf header target_piece_hash piece_length hash_algo dst
                    overwrite dry_run is_gz rest
              | none =>
                sha1MatchLoop env fs tf header target_piece_hash piece_length hash_algo dst
                  overwrite dry_run is_gz rest
          else
            sha1MatchLoop env fs tf header target_piece_hash piece_length hash_algo dst
              overwrite dry_run is_gz rest
      else
        sha1MatchLoop env fs tf header target_piece_hash piece_length hash_algo dst
          overwrite dry_run is_gz rest

/-- Embeds `_try_sha1_match` (core.py lines 160-207); `if not tf.sha1`
covers both an absent and an empty digest. -/
def _try_sha1_match (env : ToolEnv) (fs : FS) (tf : TorrentFile) (raw_name : String)
    (raw_index : List (String × List PathC)) (header : Option FmtHeader)
    (target_piece_hash : Bytes) (piece_length : Int) (hash_algo : String) (dst : PathC)
    (overwrite dry_run is_gz : Bool) : Except Unit (Bool × Nat × FS) :=
  match tf.sha1 with
  | none => .ok (false, 0, fs)
  | some s =>
    if s.isEmpty then .ok (false, 0, fs)
    else
      sha1MatchLoop env fs tf header target_piece_hash piece_length hash_algo dst overwrite
        dry_run is_gz (indexGet raw_index raw_name)

/-- Embeds `_try_brute_force_recovery` (core.py lines 210-256). -/
def _try_brute_force_recovery (env : ToolEnv) (fs : FS) (tf : TorrentFile) (raw_name : String)
    (raw_index : List (String × List PathC)) (header : Option FmtHeader)
    (target_piece_hash : Bytes) (piece_length : Int) (hash_algo : String) (dst : PathC)
    (overwrite dry_run is_gz : Bool) : Except Unit (Bool × Nat × FS) :=
  match choose_candidate fs (indexGet raw_index raw_name) none with
  | .error e => .error e
  | .ok none => .ok (false, 0, fs)
  | .ok (some raw_src) =>
    match candidatesFor env fs is_gz tf.rel_path raw_src header with
    | .error e => .error e
    | .ok none => .ok (false, 0, fs)
    | .ok (some candidates) =>
      match find_matching_candidate candidates target_piece_hash piece_length hash_algo with
      | none => .ok (false, 0, fs)
      | some m =>
        let fs1 := if !dry_run && fsExistsAny fs dst && overwrite then fsUnlink fs dst else fs
        let fs2 := fsMkdirParents fs1 dst
        let fs3 := if !dry_run then fsWriteFile fs2 dst m.2 else fs2
        if is_gz then .ok (true, 1, fs3)
        else if strEndsWith tf.rel_path ".bz2" then .ok (true, 1, fs3)
        else if strEndsWith tf.rel_path ".xz" then .ok (true, 1, fs3)
        else if strEndsWith tf.rel_path ".zst" then .ok (true, 1, fs3)
        else .ok (false, 0, fs3)

/-- The hash-algorithm selector expression of `recover`:
`"sha256" if meta.version in {"v2", "hybrid"} else "sha1"`. -/
def hashAlgoFor (version : String) : String :=
  if version = "v2" || version = "hybrid" then "sha256" else "sha1"

/-- The `if/elif` chain of `recover` adding `compressed_count` to the format
counter selected by the file's extension. -/
def addFormatCount (r : Result) (tf : TorrentFile) (cnt : Nat) : Result :=
  if strEndsWith tf.rel_path ".gz" then { r with gzipped := r.gzipped + cnt }
  else if strEndsWith tf.rel_path ".bz2" then { r with bzipped := r.bzipped + cnt }
  else if strEndsWith tf.rel_path ".xz" then { r with xzipped := r.xzipped + cnt }
  else if strEndsWith tf.rel_path ".zst" then { r with zstipped := r.zstipped + cnt }
  else r

/-- One iteration of the `for tf in meta.files` loop of `recover`
(core.py lines 283-361).  The loop locals `expected_name = Path(rel_path).name`
and `dst = out_root / rel_path` are written inline. -/
def recoverStep (env : ToolEnv) (meta : TorrentMeta)
    (partial_index raw_index : List (String × List PathC)) (out_root : PathC)
    (overwrite dry_run : Bool) (st : Result × FS) (tf : TorrentFile) :
    Except Unit (Result × FS) :=
  if _should_skip_file st.2 tf (out_root ++ strComponents tf.rel_path) overwrite then
    .ok ({ st.1 with skipped := st.1.skipped + 1 }, st.2)
  else
    match _get_piece_info tf meta meta.piece_length with
    | .error e => .error e
    | .ok none => .ok ({ st.1 with missing := st.1.missing + 1 }, st.2)
    | .ok (some pc) =>
      match _try_partial_recovery st.2 tf (pathName tf.rel_path) partial_index pc.2
          meta.piece_length (out_root ++ strComponents tf.rel_path) overwrite dry_run with
      | .error e => .error e
      | .ok (true, fs1) => .ok ({ st.1 with recovered := st.1.recovered + 1 }, fs1)
      | .ok (false, fs1) =>
        match _parse_header_from_partial fs1 tf (pathName tf.rel_path) partial_index
            (strEndsWith tf.rel_path ".gz") with
        | .error e => .error e
        | .ok header =>
          match _try_sha1_match env fs1 tf
              (_extract_raw_name (pathName tf.rel_path) tf.rel_path) raw_index header pc.2
              meta.piece_length (hashAlgoFor meta.version)
              (out_root ++ strComponents tf.rel_path) overwrite dry_run
              (strEndsWith tf.rel_path ".gz") with
          | .error e => .error e
          | .ok (true, cnt, fs2) => .ok (addFormatCount st.1 tf cnt, fs2)
          | .ok (false, _, fs2) =>
            match _try_brute_force_recovery env fs2 tf
                (_extract_raw_name (pathName tf.rel_path) tf.rel_path) raw_index header pc.2
                meta.piece_length (hashAlgoFor meta.version)
                (out_root ++ strComponents tf.rel_path) overwrite dry_run
                (strEndsWith tf.rel_path ".gz") with
            | .error e => .error e
            | .ok (true, cnt2, fs3) => .ok (addFormatCount st.1 tf cnt2, fs3)
            | .ok (false, _, fs3) => .ok ({ st.1 with missing := st.1.missing + 1 }, fs3)

/-- Embeds `recover` (core.py lines 259-371) from the point after
`parse_torrent` (embedded separately above): build the two basename indices
and process files in torrent order.  `raw_fallback` appears in the source
signature.  `.error ()` models a propagated exception, in which case the
Python call returns no `Result`. -/
def recover (env : ToolEnv) (fs : FS) (meta : TorrentMeta)
    (raw_dir partial_dir target_dir : PathC) (raw_fallback overwrite dry_run : Bool) :
    Except Unit (Result × FS) :=
  let out_root := target_dir ++ strComponents meta.name
  let partial_index := build_basename_index fs [partial_dir]
  let raw_index := build_basename_index fs [raw_dir]
  meta.files.foldlM
    (recoverStep env meta partial_index raw_index out_root overwrite dry_run)
    ({ recovered := 0, gzipped := 0, bzipped := 0, xzipped := 0, zstipped := 0,
       skipped := 0, missing := 0 }, fs)

/-- Spec-side: the sum of all counters of a `Result` (recovered, the four
per-format reproduced counters, skipped, missing). -/
def sumCounters (r : Result) : Nat :=
  r.recovered + r.gzipped + r.bzipped + r.xzipped + r.zstipped + r.skipped + r.missing

/-- Spec-side (from the claim's words): the number of files whose `attr`
does not contain the padding marker `p`. -/
def countNonPadding (files : List TorrentFile) : Nat :=
  (files.filter (fun tf =>
    !(match tf.attr with
      | some a => strContains a 'p'
      | none => false))).length

/-- The mtime a successful `stat` reports (0 when `stat` would raise; used
only under stat-success hypotheses). -/
def mtimeD (fs : FS) (p : PathC) : Int :=
  match fsStat fs p with
  | .ok e => e.mtime
  | .error _ => 0

/-- A tool oracle with no tools available and trivial library compressors. -/
def envNull : ToolEnv :=
  { run := fun _ => none, runInput := fun _ _ => none,
    pyGzip := fun _ _ => [], pyBz2 := fun _ _ => none }

/-- An empty filesystem. -/
def fsEmpty : FS := { files := [], dirs := [], clock := 0 }

/-- A torrent whose only file is a BEP47 padding file. -/
def metaPadding : TorrentMeta :=
  { name := "n",
    files := [{ rel_path := "pad", length := some 4, offset := 0, attr := some "p" }],
    piece_length := 4, pieces := [List.replicate 20 0], version := "v1" }

/-- A hybrid-version torrent with one gzip file of length 8 whose first
4-byte piece target is the SHA-1 digest of bytes 1,2,3,4. -/
def metaHybrid : TorrentMeta :=
  { name := "n", files := [{ rel_path := "a.gz", length := some 8, offset := 0 }],
    piece_length := 4, pieces := [sha1_piece [1, 2, 3, 4]], version := "hybrid" }

/-- A filesystem holding one complete partial download for `metaHybrid`. -/
def fsHybrid : FS :=
  { files := [(["p", "a.gz"], { content := [1, 2, 3, 4, 5, 6, 7, 8], mtime := 5 })],
    dirs := [["p"], ["r"]], clock := 0 }

/-- The candidate bytes every gzip tool invocation produces under `envDry`. -/
def dryCand : Bytes := [9, 9, 9, 9, 1]

/-- A tool oracle where pigz is unavailable and every gzip invocation
produces `dryCand`. -/
def envDry : ToolEnv :=
  { run := fun argv => if argv = ["pigz", "--version"] then none else some dryCand,
    runInput := fun _ _ => none, pyGzip := fun _ _ => [], pyBz2 := fun _ _ => none }

/-- A v1 torrent whose single gzip file's first-piece target matches the
first 4 bytes of `dryCand`. -/
def metaDry : TorrentMeta :=
  { name := "n", files := [{ rel_path := "a.gz", length := some 8, offset := 0 }],
    piece_length := 4, pieces := [sha1_piece [9, 9, 9, 9]], version := "v1" }

/-- A filesystem holding only the raw source `r/a` for `metaDry`. -/
def fsDry : FS :=
  { files := [(["r", "a"], { content := [7, 7], mtime := 1 })], dirs := [["r"]], clock := 0 }

/-- C1.  The claim states that the counter sum equals the number of
non-padding files.  Counterexample: a torrent whose only file is a padding
file completes with `skipped = 1`, so the counters sum to 1 while the
non-padding count is 0 — padding files are counted (in `skipped`), not
excluded. -/
theorem C1_counterexample :
    (recover envNull fsEmpty metaPadding ["r"] ["p"] ["t"] false false false).map
        (fun p => sumCounters p.1) = .ok 1 ∧
      countNonPadding metaPadding.files = 0 := by
  exact ⟨by decide, by decide⟩

/-- C2.  The claim states that every first-piece comparison, including the
direct-partial-reuse check, uses SHA-256 for hybrid torrents.
Counterexample: on the hybrid torrent `metaHybrid`, recovery accepts the
partial because the SHA-1 digest of its first piece equals the 20-byte
target (`recovered = 1`), while the SHA-256 digest of that piece differs
from the target (it is 32 bytes long), so the accepting comparison was
SHA-1, not SHA-256. -/
theorem C2_counterexample :
    metaHybrid.version = "hybrid" ∧
      (recover envNull fsHybrid metaHybrid ["r"] ["p"] ["t"] false false true).map
        (fun p => p.1.recovered) = .ok 1 ∧
      metaHybrid.pieces.getD 0 [] = sha1_piece [1, 2, 3, 4] ∧
      sha256_piece [1, 2, 3, 4] ≠ metaHybrid.pieces.getD 0 [] := by
  refine ⟨rfl, by decide, by decide, by decide⟩

/-- C3.  The claim (and the spec's dry-run invariant) states that a dry run
makes no directory under `out_root`.  On `metaDry` with `dry_run = true`,
the brute-force path finds a matching candidate, increments `gzipped`, and
creates the destination parent directories `t` and `t/n` under the output
root, because `dst.parent.mkdir(parents=True, exist_ok=True)` is not guarded
by `dry_run` in `_try_sha1_match` and `_try_brute_force_recovery`; no file
is written or unlinked (`files` is unchanged). -/
theorem C3_dry_run_creates_dirs :
    recover envDry fsDry metaDry ["r"] ["p"] ["t"] false false true =
      .ok ({ recovered := 0, gzipped := 1, bzipped := 0, xzipped := 0, zstipped := 0,
             skipped := 0, missing := 0 },
           { files := [(["r", "a"], { content := [7, 7], mtime := 1 })],
             dirs := [["r"], ["t"], ["t", "n"]], clock := 0 }) ∧
      fsDry.dirs = [["r"]] ∧ (["t"] : PathC) ∉ fsDry.dirs := by
  exact ⟨by decide, by decide, by decide⟩

/-- C9.  `recover` ignores its `raw_fallback` parameter entirely: for every
combination of oracle, filesystem, torrent, directories and flags, the
result and the final filesystem are identical for `raw_fallback = true` and
`raw_fallback = false`. -/
theorem C9_raw_fallback_unused (env : ToolEnv) (fs : FS) (meta : TorrentMeta)
    (raw_dir partial_dir target_dir : PathC) (overwrite dry_run : Bool) :
    recover env fs meta raw_dir partial_dir target_dir true overwrite dry_run =
      recover env fs meta raw_dir partial_dir target_dir false overwrite dry_run := rfl

/-- A gzip stream whose original header carries a FEXTRA block (old flags
byte 4, xlen 2, payload bytes 65 66) followed by one data byte 99. -/
def gzDataEx : Bytes := [31, 139, 8, 4, 0, 0, 0, 0, 0, 3, 2, 0, 65, 66, 99]

/-- A reference gzip header with all optional-field flag bits cleared. -/
def gzHdrEx : GzipHeader := { mtime := 0, os := 3, flags := 0 }

/-- C5.  The claim states that an existing block is deleted when its flag
bit is cleared.  Counterexample: patching `gzDataEx` (which contains a
FEXTRA block) with a header whose FEXTRA bit is cleared leaves the block's
bytes `2, 0, 65, 66` in place — the output is not the block-free stream the
claim requires. -/
theorem C5_counterexample :
    patch_gzip_header gzDataEx gzHdrEx = [31, 139, 8, 0, 0, 0, 0, 0, 0, 3, 2, 0, 65, 66, 99] ∧
      patch_gzip_header gzDataEx gzHdrEx ≠ [31, 139, 8, 0, 0, 0, 0, 0, 0, 3, 99] := by
  exact ⟨by decide, by decide⟩

/-- The loop of `find_matching_candidate` only ever returns a candidate of
length at least `pl`. -/
theorem findMatchLoop_length (hashFn : Bytes → Bytes) (target : Bytes) (pl : Int) :
    ∀ (cs : List (String × Bytes)) (c : String × Bytes),
      findMatchLoop hashFn target pl cs = some c → pl ≤ (c.2.length : Int) := by
  intro cs
  induction cs with
  | nil => intro c h; simp [findMatchLoop] at h
  | cons hd tl ih =>
    intro c h
    obtain ⟨label, data⟩ := hd
    simp only [findMatchLoop] at h
    split at h
    · exact ih c h
    · split at h
      · cases h
        show pl ≤ (data.length : Int)
        omega
      · exact ih c h

/-- The loop of `find_matching_candidate` returns `none` when every
sufficiently long candidate fails the hash comparison (short candidates are
never hashed). -/
theorem findMatchLoop_none (hashFn : Bytes → Bytes) (target : Bytes) (pl : Int) :
    ∀ (cs : List (String × Bytes)),
      (∀ c ∈ cs, pl ≤ (c.2.length : Int) → hashFn (pyTake c.2 pl) ≠ target) →
      findMatchLoop hashFn target pl cs = none := by
  intro cs
  induction cs with
  | nil => intro _; simp [findMatchLoop]
  | cons hd tl ih =>
    intro hall
    obtain ⟨label, data⟩ := hd
    simp only [findMatchLoop]
    split
    · exact ih (fun c hc => hall c (List.mem_cons_of_mem _ hc))
    · split
      · exfalso
        exact hall (label, data) (List.mem_cons_self _ _)
          (by show pl ≤ (data.length : Int); omega) (by assumption)
      · exact ih (fun c hc => hall c (List.mem_cons_of_mem _ hc))

/-- The loop of `find_matching_candidate` returns the first candidate that
is long enough and hash-matches; everything before it fails. -/
theorem findMatchLoop_first (hashFn : Bytes → Bytes) (target : Bytes) (pl : Int) :
    ∀ (cs : List (String × Bytes)) (c : String × Bytes),
      findMatchLoop hashFn target pl cs = some c →
      ∃ pre post, cs = pre ++ c :: post ∧
        (pl ≤ (c.2.length : Int) ∧ hashFn (pyTake c.2 pl) = target) ∧
        ∀ c2 ∈ pre, ¬(pl ≤ (c2.2.length : Int) ∧ hashFn (pyTake c2.2 pl) = target) := by
  intro cs
  induction cs with
  | nil => intro c h; simp [findMatchLoop] at h
  | cons hd tl ih =>
    intro c h
    obtain ⟨label, data⟩ := hd
    simp only [findMatchLoop] at h
    split at h
    · obtain ⟨pre, post, heq, hc, hpre⟩ := ih c h
      refine ⟨(label, data) :: pre, post, by simp [heq], hc, ?_⟩
      intro c2 hc2
      rcases List.mem_cons.mp hc2 with h2 | h2
      · subst h2
        intro hcon
        have hlen : pl ≤ (data.length : Int) := hcon.1
        omega
      · exact hpre c2 h2
    · split at h
      · cases h
        exact ⟨[], tl, rfl, ⟨by show pl ≤ (data.length : Int); omega, by assumption⟩, by simp⟩
      · obtain ⟨pre, post, heq, hc, hpre⟩ := ih c h
        refine ⟨(label, data) :: pre, post, by simp [heq], hc, ?_⟩
        intro c2 hc2
        rcases List.mem_cons.mp hc2 with h2 | h2
        · subst h2
          intro hcon
          exact (by assumption : ¬hashFn (pyTake data pl) = target) hcon.2
        · exact hpre c2 h2

/-- C10.  `find_matching_candidate` never returns a candidate whose byte
sequence is shorter than `piece_length`: short candidates are skipped before
hashing (so a short candidate whose clamped first piece would hash to the
target is still skipped), and the search returns `none` when no candidate of
at least `piece_length` bytes matches. -/
theorem C10_find_skips_short :
    ∀ (cs : List (String × Bytes)) (target : Bytes) (pl : Int) (algo : String),
      (∀ c, find_matching_candidate cs target pl algo = some c → pl ≤ (c.2.length : Int)) ∧
      ((∀ c ∈ cs, pl ≤ (c.2.length : Int) → hashFnFor algo (pyTake c.2 pl) ≠ target) →
        find_matching_candidate cs target pl algo = none) := by
  intro cs target pl algo
  exact ⟨fun c h => findMatchLoop_length (hashFnFor algo) target pl cs c h,
    fun h => findMatchLoop_none (hashFnFor algo) target pl cs h⟩

/-- C10 witness: with piece_length 3, a 2-byte candidate whose whole content
SHA-1-hashes to the target is skipped and the search returns `none`. -/
theorem C10_find_skips_short_witness :
    find_matching_candidate [("a", [1, 2])] (sha1_piece [1, 2]) 3 "sha1" = none ∧
      hashFnFor "sha1" (pyTake [1, 2] 3) = sha1_piece [1, 2] :=
  ⟨(C10_find_skips_short [("a", [1, 2])] (sha1_piece [1, 2]) 3 "sha1").2 (by decide), by decide⟩

/-- The candidate labels of one tool, in generation order: levels 1, 6, 9,
`-n` before plain, `--rsyncable` after plain (gzip only). -/
def gzipToolLabels (tool : String) : List String :=
  ([1, 6, 9] : List Nat).flatMap (fun level =>
    [true, false].flatMap (fun noName =>
      (if tool = "gzip" then [false, true] else [false]).map (fun rsync =>
        gzipLabel tool level noName rsync)))

/-- All gzip candidate labels in generation order: `header_match` first,
then the tools in declaration order with their level/flag variants. -/
def gzipLabelOrder : List String :=
  "header_match" :: (["gzip", "pigz"].flatMap gzipToolLabels)

/-- Mapping over a `flatMap` pushes inside. -/
theorem map_flatMap_labels {α β γ : Type} (g : β → γ) (f : α → List β) :
    ∀ l : List α, (l.flatMap f).map g = l.flatMap (fun a => (f a).map g) := by
  intro l
  induction l with
  | nil => simp
  | cons a l ih => simp [ih]

/-- Mapping over a `filterMap` pushes inside. -/
theorem map_filterMap_labels {α β γ : Type} (g : β → γ) (f : α → Option β) :
    ∀ l : List α, (l.filterMap f).map g = l.filterMap (fun a => (f a).map g) := by
  intro l
  induction l with
  | nil => simp
  | cons a l ih => cases hfa : f a <;> simp [List.filterMap_cons, hfa, ih]

/-- A `filterMap` that refines `g` yields a sublist of `map g`. -/
theorem filterMap_sublist_map {α β : Type} (f : α → Option β) (g : α → β)
    (hfg : ∀ a b, f a = some b → b = g a) :
    ∀ l : List α, (l.filterMap f).Sublist (l.map g) := by
  intro l
  induction l with
  | nil => simp
  | cons a l ih =>
    simp only [List.filterMap_cons, List.map_cons]
    cases hfa : f a with
    | none => exact ih.cons _
    | some b =>
      rw [hfg a b hfa]
      exact ih.cons₂ _

/-- Sublist congruence through `flatMap`. -/
theorem flatMap_sublist {α β : Type} (f g : α → List β)
    (hfg : ∀ a, (f a).Sublist (g a)) :
    ∀ l : List α, (l.flatMap f).Sublist (l.flatMap g) := by
  intro l
  induction l with
  | nil => simp
  | cons a l ih =>
    simp only [List.flatMap_cons]
    exact (hfg a).append ih

/-- A labeled `Option.map` can only yield its fixed label. -/
theorem optionMap_label (o : Option Bytes) (pay : Bytes → Bytes) (lab b : String) :
    ((o.map (fun data => (lab, pay data))).map Prod.fst) = some b → b = lab := by
  cases o with
  | none => intro h; simp at h
  | some d => intro h; simp at h; exact h.symm

/-- A successful tool invocation is labeled by `gzipLabel`. -/
theorem gzipToolCandidate_label (env : ToolEnv) (src : PathC) (header : Option GzipHeader)
    (tool : String) (level : Nat) (noName rsync : Bool) (b : String)
    (h : (gzipToolCandidate env src header tool level noName rsync).map Prod.fst = some b) :
    b = gzipLabel tool level noName rsync :=
  optionMap_label _ _ _ _ h

/-- The labels of the brute-force candidates are a sublist of the per-tool
label order. -/
theorem gzipBrute_labels_sublist (env : ToolEnv) (src : PathC) (header : Option GzipHeader)
    (tools : List String) :
    ((gzipBruteCandidates env src header tools).map Prod.fst).Sublist
      (tools.flatMap gzipToolLabels) := by
  unfold gzipBruteCandidates gzipToolLabels
  rw [map_flatMap_labels]
  apply flatMap_sublist
  intro tool
  rw [map_flatMap_labels]
  apply flatMap_sublist
  intro level
  rw [map_flatMap_labels]
  apply flatMap_sublist
  intro noName
  rw [map_filterMap_labels]
  apply filterMap_sublist_map
  intro rsync b hb
  exact gzipToolCandidate_label env src header tool level noName rsync b hb

/-- A tools list of `["gzip"]` or `["gzip", "pigz"]` contributes labels in
canonical order. -/
theorem tools_labels_sublist (tools : List String)
    (h : tools = ["gzip"] ∨ tools = ["gzip", "pigz"]) :
    (tools.flatMap gzipToolLabels).Sublist (["gzip", "pigz"].flatMap gzipToolLabels) := by
  rcases h with rfl | rfl
  · simp only [List.flatMap_cons, List.flatMap_nil, List.append_nil]
    exact List.sublist_append_left _ _
  · exact List.Sublist.refl _

/-- C7.  Candidates are tested in generation order, and the generation
order of `generate_gzip_candidates` is: the `header_match` candidate first,
then each tool in declaration order (gzip before pigz) with levels 1, 6, 9
and the flag variants in loop order — the produced label sequence is always
a sublist of the canonical `gzipLabelOrder`, and `find_matching_candidate`
returns the earliest candidate that is long enough and hash-matches, with
every earlier candidate failing. -/
theorem C7_candidate_order :
    ∀ (env : ToolEnv) (fs : FS) (src : PathC) (header : Option GzipHeader)
      (cs : List (String × Bytes)),
      generate_gzip_candidates env fs src header = .ok cs →
      (cs.map Prod.fst).Sublist gzipLabelOrder ∧
        ∀ (target : Bytes) (pl : Int) (algo : String) (c : String × Bytes),
          find_matching_candidate cs target pl algo = some c →
          ∃ pre post, cs = pre ++ c :: post ∧
            (pl ≤ (c.2.length : Int) ∧ hashFnFor algo (pyTake c.2 pl) = target) ∧
            ∀ c2 ∈ pre, ¬(pl ≤ (c2.2.length : Int) ∧ hashFnFor algo (pyTake c2.2 pl) = target) := by
  intro env fs src header cs h
  unfold generate_gzip_candidates at h
  cases hrd : fsReadFile fs src with
  | error e => rw [hrd] at h; exact absurd h (by simp)
  | ok sb =>
    rw [hrd] at h
    have hcs := Except.ok.inj h
    constructor
    · rw [← hcs]
      have hA : ((match header with
          | some h2 => [("header_match", patch_gzip_header (env.pyGzip sb h2.mtime) h2)]
          | none => ([] : List (String × Bytes))).map Prod.fst).Sublist ["header_match"] := by
        cases header <;> simp
      have hB := (gzipBrute_labels_sublist env src header
          (if (env.run ["pigz", "--version"]).isSome then ["gzip", "pigz"] else ["gzip"])).trans
        (tools_labels_sublist _ (by split <;> simp))
      have hAB := hA.append hB
      simpa [gzipLabelOrder, List.map_append] using hAB
    · intro target pl algo c hf
      exact findMatchLoop_first (hashFnFor algo) target pl cs c hf

/-- The oracle for the C7 witness: pigz missing, every gzip invocation
produces bytes 1 2 3 4 5. -/
def envW7 : ToolEnv :=
  { run := fun argv => if argv = ["pigz", "--version"] then none else some [1, 2, 3, 4, 5],
    runInput := fun _ _ => none, pyGzip := fun _ _ => [], pyBz2 := fun _ _ => none }

/-- A filesystem holding the raw source for the C7 witness. -/
def fsW7 : FS :=
  { files := [(["r", "a"], { content := [7], mtime := 0 })], dirs := [["r"]], clock := 0 }

/-- The candidate list `generate_gzip_candidates` produces under `envW7`. -/
def csW7 : List (String × Bytes) :=
  [("gzip -1 -n", [1, 2, 3, 4, 5]), ("gzip -1 -n --rsyncable", [1, 2, 3, 4, 5]),
   ("gzip -1", [1, 2, 3, 4, 5]), ("gzip -1 --rsyncable", [1, 2, 3, 4, 5]),
   ("gzip -6 -n", [1, 2, 3, 4, 5]), ("gzip -6 -n --rsyncable", [1, 2, 3, 4, 5]),
   ("gzip -6", [1, 2, 3, 4, 5]), ("gzip -6 --rsyncable", [1, 2, 3, 4, 5]),
   ("gzip -9 -n", [1, 2, 3, 4, 5]), ("gzip -9 -n --rsyncable", [1, 2, 3, 4, 5]),
   ("gzip -9", [1, 2, 3, 4, 5]), ("gzip -9 --rsyncable", [1, 2, 3, 4, 5])]

/-- C7 witness: on a concrete run with pigz unavailable, the produced labels
follow the canonical order and the first candidate wins the search. -/
theorem C7_candidate_order_witness :
    (csW7.map Prod.fst).Sublist gzipLabelOrder ∧
      (∃ pre post, csW7 = pre ++ (("gzip -1 -n", [1, 2, 3, 4, 5]) : String × Bytes) :: post ∧
        ((4 : Int) ≤ (([1, 2, 3, 4, 5] : Bytes).length : Int) ∧
          hashFnFor "sha1" (pyTake [1, 2, 3, 4, 5] 4) = sha1_piece [1, 2, 3, 4]) ∧
        ∀ c2 ∈ pre, ¬((4 : Int) ≤ (c2.2.length : Int) ∧
          hashFnFor "sha1" (pyTake c2.2 4) = sha1_piece [1, 2, 3, 4])) := by
  have h := C7_candidate_order envW7 fsW7 ["r", "a"] none csW7 (by decide)
  exact ⟨h.1, h.2 (sha1_piece [1, 2, 3, 4]) 4 "sha1" ("gzip -1 -n", [1, 2, 3, 4, 5]) (by decide)⟩

/-- `maxByMtimeLoop` keeps the first maximal entry: the result is the
initial best or a list element, and its mtime dominates both. -/
theorem maxByMtimeLoop_spec (fs : FS) :
    ∀ (l : List PathC) (best out : PathC) (bestM : Int),
      bestM = mtimeD fs best →
      maxByMtimeLoop fs best bestM l = .ok out →
      (out = best ∨ out ∈ l) ∧ mtimeD fs best ≤ mtimeD fs out ∧
        ∀ q ∈ l, mtimeD fs q ≤ mtimeD fs out := by
  intro l
  induction l with
  | nil =>
    intro best out bestM hb h
    simp only [maxByMtimeLoop, Except.ok.injEq] at h
    subst h
    exact ⟨Or.inl rfl, le_refl _, by simp⟩
  | cons y ys ih =>
    intro best out bestM hb h
    simp only [maxByMtimeLoop] at h
    split at h
    · exact absurd h (by simp)
    · rename_i ey hst
      have hym : ey.mtime = mtimeD fs y := by simp [mtimeD, hst]
      split at h
      · rename_i hlt
        obtain ⟨ho, hle, hall⟩ := ih y out ey.mtime hym h
        refine ⟨?_, ?_, ?_⟩
        · rcases ho with rfl | hm
          · exact Or.inr (List.mem_cons_self _ _)
          · exact Or.inr (List.mem_cons_of_mem _ hm)
        · rw [hym] at hlt
          omega
        · intro q hq
          rcases List.mem_cons.mp hq with rfl | hm
          · exact hle
          · exact hall q hm
      · rename_i hnlt
        obtain ⟨ho, hle, hall⟩ := ih best out bestM hb h
        refine ⟨?_, hle, ?_⟩
        · rcases ho with rfl | hm
          · exact Or.inl rfl
          · exact Or.inr (List.mem_cons_of_mem _ hm)
        · intro q hq
          rcases List.mem_cons.mp hq with rfl | hm
          · rw [← hym]
            omega
          · exact hall q hm

/-- `maxByMtime` on a nonempty list returns a member whose mtime dominates
the whole list. -/
theorem maxByMtime_spec (fs : FS) (l : List PathC) (out : Option PathC)
    (hne : l ≠ []) (h : maxByMtime fs l = .ok out) :
    ∃ b, out = some b ∧ b ∈ l ∧ ∀ q ∈ l, mtimeD fs q ≤ mtimeD fs b := by
  cases l with
  | nil => exact absurd rfl hne
  | cons x xs =>
    simp only [maxByMtime] at h
    split at h
    · exact absurd h (by simp)
    · rename_i ex hst
      split at h
      · exact absurd h (by simp)
      · rename_i p hloop
        simp only [Except.ok.injEq] at h
        subst h
        obtain ⟨ho, hle, hall⟩ :=
          maxByMtimeLoop_spec fs xs x p ex.mtime (by simp [mtimeD, hst]) hloop
        refine ⟨p, rfl, ?_, ?_⟩
        · rcases ho with rfl | hm
          · exact List.mem_cons_self _ _
          · exact List.mem_cons_of_mem _ hm
        · intro q hq
          rcases List.mem_cons.mp hq with rfl | hm
          · exact hle
          · exact hall q hm

/-- C6.  `choose_candidate`: an empty list yields `none`; with an expected
size, a unique exact-size path is returned directly; several exact-size
paths yield the latest-mtime one among them; otherwise (no expected size,
or an empty exact-size subset) the latest-mtime entry of the full list is
returned.  (The exact-size subset also requires `p.exists()`, as in the
source.) -/
theorem C6_choose_candidate :
    ∀ (fs : FS) (candidates : List PathC) (sz : Int) (p : PathC) (out : Option PathC),
      (choose_candidate fs [] (some sz) = .ok none ∧ choose_candidate fs [] none = .ok none) ∧
      (candidates.filter (fun q => fsExistsAny fs q && decide (fsSizeD fs q = sz)) = [p] →
        choose_candidate fs candidates (some sz) = .ok (some p)) ∧
      (1 < (candidates.filter (fun q => fsExistsAny fs q && decide (fsSizeD fs q = sz))).length →
        choose_candidate fs candidates (some sz) = .ok out →
        ∃ b, out = some b ∧
          b ∈ candidates.filter (fun q => fsExistsAny fs q && decide (fsSizeD fs q = sz)) ∧
          ∀ q ∈ candidates.filter (fun q => fsExistsAny fs q && decide (fsSizeD fs q = sz)),
            mtimeD fs q ≤ mtimeD fs b) ∧
      (candidates.filter (fun q => fsExistsAny fs q && decide (fsSizeD fs q = sz)) = [] →
        candidates ≠ [] →
        choose_candidate fs candidates (some sz) = .ok out →
        ∃ b, out = some b ∧ b ∈ candidates ∧ ∀ q ∈ candidates, mtimeD fs q ≤ mtimeD fs b) ∧
      (candidates ≠ [] →
        choose_candidate fs candidates none = .ok out →
        ∃ b, out = some b ∧ b ∈ candidates ∧ ∀ q ∈ candidates, mtimeD fs q ≤ mtimeD fs b) := by
  intro fs candidates sz p out
  refine ⟨⟨by simp [choose_candidate], by simp [choose_candidate]⟩, ?_, ?_, ?_, ?_⟩
  · intro hf
    have hne : candidates ≠ [] := by
      intro hc
      rw [hc] at hf
      simp at hf
    simp only [choose_candidate, List.isEmpty_eq_true, hne, if_false, hf]
    simp
  · intro hlen h
    have hne : candidates ≠ [] := by
      intro hc
      rw [hc] at hlen
      simp at hlen
    simp only [choose_candidate, List.isEmpty_eq_true, hne, if_false] at h
    rw [if_neg (by omega) , if_pos hlen] at h
    have hfne : candidates.filter (fun q => fsExistsAny fs q && decide (fsSizeD fs q = sz)) ≠ [] := by
      intro hc
      rw [hc] at hlen
      simp at hlen
    exact maxByMtime_spec fs _ out hfne h
  · intro hf hne h
    simp only [choose_candidate, List.isEmpty_eq_true, hne, if_false, hf] at h
    simp only [List.length_nil] at h
    rw [if_neg (by omega), if_neg (by omega)] at h
    exact maxByMtime_spec fs _ out hne h
  · intro hne h
    simp only [choose_candidate, List.isEmpty_eq_true, hne, if_false] at h
    exact maxByMtime_spec fs _ out hne h

/-- A filesystem with three files of assorted sizes and mtimes under `d`,
for the C6 witness. -/
def fsW6 : FS :=
  { files := [(["d", "x"], { content := [1, 2], mtime := 1 }),
              (["d", "y"], { content := [1, 2], mtime := 9 }),
              (["d", "z"], { content := [1], mtime := 3 })],
    dirs := [["d"]], clock := 0 }

/-- The candidate list for the C6 witness. -/
def candsW6 : List PathC := [["d", "x"], ["d", "y"], ["d", "z"]]

/-- C6 witness: the unique size-1 path is chosen directly, and with no
expected size the latest-mtime entry dominates the whole list. -/
theorem C6_choose_candidate_witness :
    choose_candidate fsW6 candsW6 (some 1) = .ok (some ["d", "z"]) ∧
      (∃ b, (some ["d", "y"] : Option PathC) = some b ∧ b ∈ candsW6 ∧
        ∀ q ∈ candsW6, mtimeD fsW6 q ≤ mtimeD fsW6 b) := by
  refine ⟨(C6_choose_candidate fsW6 candsW6 1 ["d", "z"] none).2.1 (by decide), ?_⟩
  exact (C6_choose_candidate fsW6 candsW6 0 ["d", "z"] (some ["d", "y"])).2.2.2.2
    (by decide) (by decide)

/-- The offsets of a file list are the running sums of lengths from `base`. -/
def offsetsFrom : Int → List TorrentFile → Prop
  | _, [] => True
  | base, tf :: rest => tf.offset = base ∧ offsetsFrom (base + tf.length.getD 0) rest

/-- `sumLens` over a snoc. -/
theorem sumLens_append (l : List TorrentFile) (x : TorrentFile) :
    sumLens (l ++ [x]) = sumLens l + x.length.getD 0 := by
  induction l with
  | nil => simp [sumLens]
  | cons a l ih =>
    show a.length.getD 0 + sumLens (l ++ [x]) = a.length.getD 0 + sumLens l + x.length.getD 0
    rw [ih]
    omega

/-- Appending a file whose offset is the current total preserves the
running-sum property. -/
theorem offsetsFrom_append (base : Int) (l : List TorrentFile) (x : TorrentFile)
    (hl : offsetsFrom base l) (hx : x.offset = base + sumLens l) :
    offsetsFrom base (l ++ [x]) := by
  induction l generalizing base with
  | nil =>
    simp only [sumLens] at hx
    simpa [offsetsFrom] using by omega
  | cons a l ih =>
    obtain ⟨h1, h2⟩ := hl
    refine ⟨h1, ih (base + a.length.getD 0) h2 ?_⟩
    simp only [sumLens] at hx
    omega

/-- Running-sum offsets give the claim's per-index form. -/
theorem offsetsFrom_get (l : List TorrentFile) :
    ∀ (base : Int), offsetsFrom base l →
      ∀ (i : Nat) (tf : TorrentFile), l.get? i = some tf →
        tf.offset = base + sumLens (l.take i) := by
  induction l with
  | nil => intro base _ i tf h; simp at h
  | cons a l ih =>
    intro base hof i tf h
    obtain ⟨h1, h2⟩ := hof
    cases i with
    | zero =>
      simp only [List.get?] at h
      cases h
      simp [sumLens, h1]
    | succ n =>
      simp only [List.get?] at h
      have hrec := ih (base + a.length.getD 0) h2 n tf h
      simp only [List.take_succ_cons, sumLens]
      omega

/-- A kept file entry carries the running offset it was built with. -/
theorem fileEntryParse_offset (off : Int) (fe : Bencode) (tf : TorrentFile)
    (h : fileEntryParse off fe = some tf) : tf.offset = off := by
  unfold fileEntryParse at h
  split at h
  · split at h
    · split at h
      · exact absurd h (by simp)
      · split at h
        · exact absurd h (by simp)
        · simp only [Option.some.injEq] at h
          subst h
          rfl
    · exact absurd h (by simp)
  · exact absurd h (by simp)

/-- The files-loop fold preserves the running-sum invariant. -/
theorem filesFold_inv (fentries : List Bencode) :
    ∀ (st : List TorrentFile × Int),
      offsetsFrom 0 st.1 → st.2 = sumLens st.1 →
      offsetsFrom 0 (fentries.foldl fileEntryStep st).1 ∧
        (fentries.foldl fileEntryStep st).2 = sumLens (fentries.foldl fileEntryStep st).1 := by
  induction fentries with
  | nil => intro st h1 h2; exact ⟨h1, h2⟩
  | cons fe rest ih =>
    intro st h1 h2
    simp only [List.foldl_cons]
    have hstep : offsetsFrom 0 (fileEntryStep st fe).1 ∧
        (fileEntryStep st fe).2 = sumLens (fileEntryStep st fe).1 := by
      unfold fileEntryStep
      cases hp : fileEntryParse st.2 fe with
      | none => exact ⟨h1, h2⟩
      | some tf =>
        constructor
        · exact offsetsFrom_append 0 st.1 tf h1
            (by rw [fileEntryParse_offset st.2 fe tf hp, h2]; omega)
        · simp only [sumLens_append, h2]
    exact ih _ hstep.1 hstep.2

/-- C4.  For every successfully parsed torrent and every file of its file
list, the file's `offset` equals the sum of the lengths of the files
preceding it in the list (an absent length counting as zero). -/
theorem C4_offsets (root : Bencode) (stem : String) (meta : TorrentMeta)
    (h : parse_torrent root stem = .ok meta) :
    ∀ (i : Nat) (tf : TorrentFile), meta.files.get? i = some tf →
      tf.offset = sumLens (meta.files.take i) := by
  have hof : offsetsFrom 0 meta.files := by
    unfold parse_torrent at h
    repeat split at h
    any_goals exact Except.noConfusion h
    all_goals simp only [Except.ok.injEq] at h
    all_goals subst h
    · exact (filesFold_inv _ ([], 0) trivial rfl).1
    · exact ⟨rfl, trivial⟩
  intro i tf hget
  have := offsetsFrom_get meta.files 0 hof i tf hget
  simpa using this

/-- The root bencode tree for the C4/C8 witnesses: a hybrid torrent with a
kept 3-byte entry, a dropped entry, and a kept 5-byte entry. -/
def rootW : Bencode :=
  .dict [(asciiBytes "info", .dict [
    (asciiBytes "name", .str (asciiBytes "samp")),
    (asciiBytes "meta version", .int 2),
    (asciiBytes "piece length", .int 4),
    (asciiBytes "pieces", .str (List.replicate 40 7)),
    (asciiBytes "files", .list [
      .dict [(asciiBytes "length", .int 3),
             (asciiBytes "path", .list [.str (asciiBytes "a.gz")])],
      .dict [(asciiBytes "path", .list [])],
      .dict [(asciiBytes "length", .int 5),
             (asciiBytes "path", .list [.str (asciiBytes "sub"), .str (asciiBytes "b.gz")])]])])]

/-- The second kept file of `rootW`, at offset 3. -/
def tfW : TorrentFile :=
  { rel_path := "sub/b.gz", length := some 5, offset := 3, sha1 := none, attr := none,
    symlink_path := none }

/-- The parse result of `rootW` (hybrid: meta version 2 with v1 fields). -/
def metaW : TorrentMeta :=
  { name := "samp",
    files := [{ rel_path := "a.gz", length := some 3, offset := 0 }, tfW],
    piece_length := 4, pieces := [List.replicate 20 7, List.replicate 20 7],
    version := "hybrid" }

/-- C4 witness: in the parsed `rootW`, the file at index 1 (after the
dropped empty-path entry) sits at offset 3, the length of the file before
it. -/
theorem C4_offsets_witness : tfW.offset = sumLens (metaW.files.take 1) :=
  C4_offsets rootW "st" metaW (by decide) 1 tfW (by decide)

/-- When the info dict has a `piece length` key, version detection cannot
end on `v2`: the hybrid promotion fires. -/
theorem detectVersion_cases (info : List (Bytes × Bencode))
    (hpl : (bGet info (asciiBytes "piece length")).isSome = true) :
    detectVersion info = "v1" ∨ detectVersion info = "hybrid" := by
  unfold detectVersion
  split_ifs <;> simp_all

/-- C8.  Every successfully parsed `TorrentMeta` has version `v1` or
`hybrid`, never `v2`: a successful parse requires the `piece length` and
`pieces` fields, whose presence promotes every meta-version-2 torrent to
`hybrid`. -/
theorem C8_version_never_v2 (root : Bencode) (stem : String) (meta : TorrentMeta)
    (h : parse_torrent root stem = .ok meta) :
    meta.version = "v1" ∨ meta.version = "hybrid" := by
  unfold parse_torrent at h
  split at h
  · split at h
    · split at h
      · rename_i piece_length hplget
        have hpl := congrArg Option.isSome hplget
        simp only [Option.isSome_some] at hpl
        split at h
        · split at h
          · split at h
            · simp only [Except.ok.injEq] at h
              subst h
              exact detectVersion_cases _ hpl
            · exact Except.noConfusion h
            · simp only [Except.ok.injEq] at h
              subst h
              exact detectVersion_cases _ hpl
          · exact Except.noConfusion h
        · exact Except.noConfusion h
      · exact Except.noConfusion h
    · exact Except.noConfusion h
  · exact Except.noConfusion h

/-- C8 witness: `rootW` carries `meta version = 2` together with the v1
`pieces`/`piece length` fields, and parses to version `hybrid`, not `v2`. -/
theorem C8_version_never_v2_witness :
    metaW.version = "v1" ∨ metaW.version = "hybrid" :=
  C8_version_never_v2 rootW "st" metaW (by decide)

/-- A successful sha1-gate loop reports a compressed count of exactly 1. -/
theorem sha1MatchLoop_count (env : ToolEnv) (fs : FS) (tf : TorrentFile)
    (header : Option FmtHeader) (target : Bytes) (pl : Int) (algo : String) (dst : PathC)
    (ow dr isg : Bool) :
    ∀ (l : List PathC) (n : Nat) (fs2 : FS),
      sha1MatchLoop env fs tf header target pl algo dst ow dr isg l = .ok (true, n, fs2) →
      n = 1 := by
  intro l
  induction l with
  | nil => intro n fs2 h; simp [sha1MatchLoop] at h
  | cons rp rest ih =>
    intro n fs2 h
    simp only [sha1MatchLoop] at h
    repeat' split at h
    all_goals first
      | exact Except.noConfusion h
      | exact ih _ _ h
      | (simp only [Except.ok.injEq, Prod.mk.injEq] at h
         first
           | exact h.2.1.symm
           | exact absurd h.1 (by simp))

/-- A successful `_try_sha1_match` reports a compressed count of exactly 1. -/
theorem sha1Match_count (env : ToolEnv) (fs : FS) (tf : TorrentFile) (rn : String)
    (ridx : List (String × List PathC)) (header : Option FmtHeader) (target : Bytes)
    (pl : Int) (algo : String) (dst : PathC) (ow dr isg : Bool) (n : Nat) (fs2 : FS)
    (h : _try_sha1_match env fs tf rn ridx header target pl algo dst ow dr isg =
      .ok (true, n, fs2)) : n = 1 := by
  unfold _try_sha1_match at h
  split at h
  · simp at h
  · split at h
    · simp at h
    · exact sha1MatchLoop_count env fs tf header target pl algo dst ow dr isg _ n fs2 h

/-- A successful `_try_brute_force_recovery` reports a compressed count of
exactly 1. -/
theorem bruteForce_count (env : ToolEnv) (fs : FS) (tf : TorrentFile) (rn : String)
    (ridx : List (String × List PathC)) (header : Option FmtHeader) (target : Bytes)
    (pl : Int) (algo : String) (dst : PathC) (ow dr isg : Bool) (n : Nat) (fs2 : FS)
    (h : _try_brute_force_recovery env fs tf rn ridx header target pl algo dst ow dr isg =
      .ok (true, n, fs2)) : n = 1 := by
  unfold _try_brute_force_recovery at h
  repeat' split at h
  all_goals first
    | exact Except.noConfusion h
    | (simp only [Except.ok.injEq, Prod.mk.injEq] at h
       first
         | exact h.2.1.symm
         | exact absurd h.1 (by simp))

/-- A non-skipped file carries one of the four known extensions. -/
theorem skip_false_ext (fs : FS) (tf : TorrentFile) (dst : PathC) (ow : Bool)
    (h : _should_skip_file fs tf dst ow = false) :
    (strEndsWith tf.rel_path ".gz" || strEndsWith tf.rel_path ".bz2" ||
     strEndsWith tf.rel_path ".xz" || strEndsWith tf.rel_path ".zst") = true := by
  unfold _should_skip_file at h
  split at h
  · exact absurd h (by simp)
  · split at h
    · exact absurd h (by simp)
    · rename_i hB
      cases hb : (strEndsWith tf.rel_path ".gz" || strEndsWith tf.rel_path ".bz2" ||
          strEndsWith tf.rel_path ".xz" || strEndsWith tf.rel_path ".zst") with
      | false => exact absurd (by rw [hb]; rfl) hB
      | true => rfl

/-- Adding a format count of 1 under a known extension raises the counter
sum by one. -/
theorem addFormatCount_sum (r : Result) (tf : TorrentFile)
    (hext : (strEndsWith tf.rel_path ".gz" || strEndsWith tf.rel_path ".bz2" ||
      strEndsWith tf.rel_path ".xz" || strEndsWith tf.rel_path ".zst") = true) :
    sumCounters (addFormatCount r tf 1) = sumCounters r + 1 := by
  unfold addFormatCount
  split
  · simp [sumCounters]
    omega
  · split
    · simp [sumCounters]
      omega
    · split
      · simp [sumCounters]
        omega
      · split
        · simp [sumCounters]
          omega
        · simp_all

/-- Each completed iteration of the `recover` loop increments exactly one
counter. -/
theorem recoverStep_sum (env : ToolEnv) (meta : TorrentMeta)
    (pidx ridx : List (String × List PathC)) (oroot : PathC) (ow dr : Bool)
    (st : Result × FS) (tf : TorrentFile) (out : Result × FS)
    (h : recoverStep env meta pidx ridx oroot ow dr st tf = .ok out) :
    sumCounters out.1 = sumCounters st.1 + 1 := by
  unfold recoverStep at h
  split at h
  · simp only [Except.ok.injEq] at h
    rw [← h]
    simp [sumCounters]
    omega
  · rename_i hskip
    have hext := skip_false_ext st.2 tf (oroot ++ strComponents tf.rel_path) ow
      (by simpa using hskip)
    repeat' split at h
    all_goals first
      | exact Except.noConfusion h
      | (simp only [Except.ok.injEq] at h
         rw [← h]
         first
           | (simp [sumCounters]; omega)
           | (rename_i cnt fs9 heq
              first
                | (rw [sha1Match_count _ _ _ _ _ _ _ _ _ _ _ _ _ cnt fs9 heq]
                   exact addFormatCount_sum st.1 tf hext)
                | (rw [bruteForce_count _ _ _ _ _ _ _ _ _ _ _ _ _ cnt fs9 heq]
                   exact addFormatCount_sum st.1 tf hext)))

/-- The `recover` loop fold adds the file count to the counter sum. -/
theorem recover_fold_sum (env : ToolEnv) (meta : TorrentMeta)
    (pidx ridx : List (String × List PathC)) (oroot : PathC) (ow dr : Bool) :
    ∀ (l : List TorrentFile) (init out : Result × FS),
      List.foldlM (recoverStep env meta pidx ridx oroot ow dr) init l = .ok out →
      sumCounters out.1 = sumCounters init.1 + l.length := by
  intro l
  induction l with
  | nil =>
    intro init out h
    simp only [List.foldlM_nil] at h
    cases h
    simp
  | cons tf rest ih =>
    intro init out h
    simp only [List.foldlM_cons] at h
    cases hstep : recoverStep env meta pidx ridx oroot ow dr init tf with
    | error e => rw [hstep] at h; simp [Bind.bind, Except.bind] at h
    | ok mid =>
      rw [hstep] at h
      simp only [Bind.bind, Except.bind] at h
      have h2 := ih mid out h
      have h1 := recoverStep_sum env meta pidx ridx oroot ow dr init tf mid hstep
      simp only [List.length_cons]
      omega

/-- C1 (amended).  Every completed `recover` run's counters sum to the total
number of files in `meta.files` (padding files are counted in `skipped`,
not excluded). -/
theorem C1_sum_counters (env : ToolEnv) (fs : FS) (meta : TorrentMeta)
    (raw_dir partial_dir target_dir : PathC) (rf ow dr : Bool) (r : Result) (fs2 : FS)
    (h : recover env fs meta raw_dir partial_dir target_dir rf ow dr = .ok (r, fs2)) :
    sumCounters r = meta.files.length := by
  unfold recover at h
  have hsum := recover_fold_sum env meta
    (build_basename_index fs [partial_dir]) (build_basename_index fs [raw_dir])
    (target_dir ++ strComponents meta.name) ow dr meta.files
    ({ recovered := 0, gzipped := 0, bzipped := 0, xzipped := 0, zstipped := 0,
       skipped := 0, missing := 0 }, fs) (r, fs2) h
  simpa [sumCounters] using hsum

/-- The counter record of the padding-file run. -/
def resPad : Result :=
  { recovered := 0, gzipped := 0, bzipped := 0, xzipped := 0, zstipped := 0, skipped := 1, missing := 0 }

/-- C1 witness: the padding-file run completes with `skipped = 1` and the
counter sum equals the single-file torrent's file count. -/
theorem C1_sum_counters_witness : sumCounters resPad = metaPadding.files.length :=
  C1_sum_counters envNull fsEmpty metaPadding ["r"] ["p"] ["t"] false false false
    resPad fsEmpty (by decide)

/-- C2 (amended).  A successful direct-partial-reuse accepts by SHA-1: the
comparison `_try_partial_recovery` performs is `sha1_piece` against the
target, with no version input at all — while the algorithm string handed to
the candidate searches (`hashAlgoFor`) selects `sha1_piece` under `v1` and
`sha256_piece` under `v2`/`hybrid`. -/
theorem C2_hash_selection (fs : FS) (tf : TorrentFile) (en : String)
    (pidx : List (String × List PathC)) (target : Bytes) (pl : Int) (dst : PathC)
    (ow dr : Bool) (fs2 : FS)
    (h : _try_partial_recovery fs tf en pidx target pl dst ow dr = .ok (true, fs2)) :
    (∃ chosen content,
        choose_candidate fs (indexGet pidx en) tf.length = .ok (some chosen) ∧
        fsReadFile fs chosen = .ok content ∧
        sha1_piece (pyTake content pl) = target) ∧
      hashFnFor (hashAlgoFor "v1") = sha1_piece ∧
      hashFnFor (hashAlgoFor "v2") = sha256_piece ∧
      hashFnFor (hashAlgoFor "hybrid") = sha256_piece := by
  refine ⟨?_, rfl, rfl, rfl⟩
  unfold _try_partial_recovery at h
  split at h
  · exact Except.noConfusion h
  · exfalso
    simp at h
  · rename_i chosen hch
    split at h
    · exact Except.noConfusion h
    · rename_i st hst
      split at h
      · split at h
        · exact Except.noConfusion h
        · rename_i content hrd
          split at h
          · rename_i hsha
            repeat' split at h
            all_goals first
              | exact Except.noConfusion h
              | exact ⟨chosen, content, hch, hrd, hsha⟩
          · exfalso
            simp at h
      · exfalso
        simp at h

/-- The single file of `metaHybrid`. -/
def tfH : TorrentFile := { rel_path := "a.gz", length := some 8, offset := 0 }

/-- The partial-directory index `recover` builds for `fsHybrid`. -/
def pidxH : List (String × List PathC) := build_basename_index fsHybrid [["p"]]

/-- C2 witness: the hybrid run's accepted partial concretely satisfies the
SHA-1 acceptance equation, and the selector facts are instantiated. -/
theorem C2_hash_selection_witness :
    (∃ chosen content,
        choose_candidate fsHybrid (indexGet pidxH "a.gz") tfH.length = .ok (some chosen) ∧
        fsReadFile fsHybrid chosen = .ok content ∧
        sha1_piece (pyTake content 4) = sha1_piece [1, 2, 3, 4]) ∧
      hashFnFor (hashAlgoFor "v1") = sha1_piece ∧
      hashFnFor (hashAlgoFor "v2") = sha256_piece ∧
      hashFnFor (hashAlgoFor "hybrid") = sha256_piece :=
  C2_hash_selection fsHybrid tfH "a.gz" pidxH (sha1_piece [1, 2, 3, 4]) 4
    ["t", "n", "a.gz"] false true fsHybrid (by decide)

/-- Splitting a `drop` over a sum of counts. -/
theorem drop_add_split (m k : Nat) : ∀ (l : Bytes), l.drop (m + k) = (l.drop m).drop k := by
  induction m with
  | zero =>
    intro l
    simp
  | succ n ihn =>
    intro l
    cases l with
    | nil => simp
    | cons x t =>
      have hsum : n + 1 + k = n + k + 1 := by omega
      rw [hsum, List.drop_succ_cons, List.drop_succ_cons, ihn]

/-- A byte string of length at least 10 splits into ten heads and a tail. -/
theorem exists_ten_bytes (data : Bytes) (hlen : 10 ≤ data.length) :
    ∃ b0 b1 b2 b3 b4 b5 b6 b7 b8 b9 rest,
      data = b0 :: b1 :: b2 :: b3 :: b4 :: b5 :: b6 :: b7 :: b8 :: b9 :: rest := by
  rcases data with _ | ⟨b0, _ | ⟨b1, _ | ⟨b2, _ | ⟨b3, _ | ⟨b4, _ | ⟨b5, _ | ⟨b6, _ |
    ⟨b7, _ | ⟨b8, _ | ⟨b9, rest⟩⟩⟩⟩⟩⟩⟩⟩⟩⟩
  all_goals first
    | (exfalso
       simp only [List.length_cons, List.length_nil] at hlen
       omega)
    | exact ⟨b0, b1, b2, b3, b4, b5, b6, b7, b8, b9, rest, rfl⟩

/-- With the FEXTRA flag bit cleared, the FEXTRA stage leaves the state alone. -/
theorem patchGzipExtra_skip (h : GzipHeader) (st : Bytes × Nat) (h4 : h.flags &&& 4 = 0) :
    patchGzipExtra h st = st := by
  unfold patchGzipExtra
  rw [if_neg (fun hc => hc h4)]

/-- With the FNAME flag bit cleared, the FNAME stage leaves the state alone. -/
theorem patchGzipName_skip (h : GzipHeader) (st : Bytes × Nat) (h8 : h.flags &&& 8 = 0) :
    patchGzipName h st = st := by
  unfold patchGzipName
  rw [if_neg (fun hc => hc h8)]

/-- With the FCOMMENT flag bit cleared, the FCOMMENT stage returns the bytes unchanged. -/
theorem patchGzipComment_skip (h : GzipHeader) (st : Bytes × Nat) (h16 : h.flags &&& 16 = 0) :
    patchGzipComment h st = st.1 := by
  unfold patchGzipComment
  rw [if_neg (fun hc => hc h16)]

/-- FEXTRA stage, insert case: the new length-prefixed block replaces the two
bytes at the position. -/
theorem patchGzipExtra_insert (h : GzipHeader) (b : Bytes) (pos : Nat) (e : Bytes)
    (h4 : h.flags &&& 4 ≠ 0) (he : h.extra = some e) :
    patchGzipExtra h (b, pos) =
      (b.take pos ++ leBytes 2 e.length ++ e ++ b.drop (pos + 2), pos + 2 + e.length) := by
  have hst : ∀ st : Bytes × Nat, patchGzipExtra h st =
      (st.1.take st.2 ++ leBytes 2 e.length ++ e ++ st.1.drop (st.2 + 2),
        st.2 + 2 + e.length) := by
    intro st
    unfold patchGzipExtra
    rw [if_pos h4, he]
  exact hst (b, pos)

/-- FEXTRA stage, delete case: the length-prefixed extent at the position is
removed. -/
theorem patchGzipExtra_delete (h : GzipHeader) (b : Bytes) (pos : Nat)
    (h4 : h.flags &&& 4 ≠ 0) (he : h.extra = none) :
    patchGzipExtra h (b, pos) =
      (b.take pos ++ b.drop (pos + 2 + leNat ((b.drop pos).take 2)), pos) := by
  have hst : ∀ st : Bytes × Nat, patchGzipExtra h st =
      (st.1.take st.2 ++ st.1.drop (st.2 + 2 + leNat ((st.1.drop st.2).take 2)), st.2) := by
    intro st
    unfold patchGzipExtra
    rw [if_pos h4, he]
  exact hst (b, pos)

/-- FNAME stage, insert case: the NUL-terminated name is inserted at the
position. -/
theorem patchGzipName_insert (h : GzipHeader) (b : Bytes) (pos : Nat) (f : Bytes)
    (h8 : h.flags &&& 8 ≠ 0) (hf : h.fname = some f) :
    patchGzipName h (b, pos) =
      (b.take pos ++ (f ++ [0]) ++ b.drop pos, pos + (f.length + 1)) := by
  have hst : ∀ st : Bytes × Nat, patchGzipName h st =
      (st.1.take st.2 ++ (f ++ [0]) ++ st.1.drop st.2, st.2 + (f.length + 1)) := by
    intro st
    unfold patchGzipName
    rw [if_pos h8, hf]
  exact hst (b, pos)

/-- FNAME stage, delete case with a NUL present: everything from the position
through the first NUL is removed and the position moves to the end. -/
theorem patchGzipName_deleteFound (h : GzipHeader) (b : Bytes) (pos e : Nat)
    (h8 : h.flags &&& 8 ≠ 0) (hf : h.fname = none) (hz : findZeroFrom b pos = some e) :
    patchGzipName h (b, pos) =
      (b.take pos ++ b.drop (e + 1), (b.take pos ++ b.drop (e + 1)).length) := by
  have hst : ∀ st : Bytes × Nat, findZeroFrom st.1 st.2 = some e → patchGzipName h st =
      (st.1.take st.2 ++ st.1.drop (e + 1),
        (st.1.take st.2 ++ st.1.drop (e + 1)).length) := by
    intro st hzst
    unfold patchGzipName
    rw [if_pos h8, hf, hzst]
  exact hst (b, pos) hz

/-- FNAME stage, delete case with no NUL: the state is unchanged. -/
theorem patchGzipName_deleteNone (h : GzipHeader) (b : Bytes) (pos : Nat)
    (h8 : h.flags &&& 8 ≠ 0) (hf : h.fname = none) (hz : findZeroFrom b pos = none) :
    patchGzipName h (b, pos) = (b, pos) := by
  have hst : ∀ st : Bytes × Nat, findZeroFrom st.1 st.2 = none →
      patchGzipName h st = st := by
    intro st hzst
    unfold patchGzipName
    rw [if_pos h8, hf, hzst]
  exact hst (b, pos) hz

/-- FCOMMENT stage, insert case: the NUL-terminated comment is inserted at
the position. -/
theorem patchGzipComment_insert (h : GzipHeader) (b : Bytes) (pos : Nat) (f : Bytes)
    (h16 : h.flags &&& 16 ≠ 0) (hf : h.fcomment = some f) :
    patchGzipComment h (b, pos) = b.take pos ++ (f ++ [0]) ++ b.drop pos := by
  have hst : ∀ st : Bytes × Nat, patchGzipComment h st =
      st.1.take st.2 ++ (f ++ [0]) ++ st.1.drop st.2 := by
    intro st
    unfold patchGzipComment
    rw [if_pos h16, hf]
  exact hst (b, pos)

/-- FCOMMENT stage, delete case with a NUL present: everything from the
position through the first NUL is removed. -/
theorem patchGzipComment_deleteFound (h : GzipHeader) (b : Bytes) (pos e : Nat)
    (h16 : h.flags &&& 16 ≠ 0) (hf : h.fcomment = none) (hz : findZeroFrom b pos = some e) :
    patchGzipComment h (b, pos) = b.take pos ++ b.drop (e + 1) := by
  have hst : ∀ st : Bytes × Nat, findZeroFrom st.1 st.2 = some e →
      patchGzipComment h st = st.1.take st.2 ++ st.1.drop (e + 1) := by
    intro st hzst
    unfold patchGzipComment
    rw [if_pos h16, hf, hzst]
  exact hst (b, pos) hz

/-- FCOMMENT stage, delete case with no NUL: the bytes are unchanged. -/
theorem patchGzipComment_deleteNone (h : GzipHeader) (b : Bytes) (pos : Nat)
    (h16 : h.flags &&& 16 ≠ 0) (hf : h.fcomment = none) (hz : findZeroFrom b pos = none) :
    patchGzipComment h (b, pos) = b := by
  have hst : ∀ st : Bytes × Nat, findZeroFrom st.1 st.2 = none →
      patchGzipComment h st = st.1 := by
    intro st hzst
    unfold patchGzipComment
    rw [if_pos h16, hf, hzst]
  exact hst (b, pos) hz

/-- The fixed-field stage only touches bytes 3-9, so a NUL search from
position 10 sees the same bytes as in the original stream. -/
theorem findZeroFrom_fixed (data : Bytes) (h : GzipHeader) (hlen : 10 ≤ data.length) :
    findZeroFrom (patchGzipFixed data h) 10 = findZeroFrom data 10 := by
  obtain ⟨b0, b1, b2, b3, b4, b5, b6, b7, b8, b9, rest, rfl⟩ := exists_ten_bytes data hlen
  rfl

/-- Dropping past offset 10 of the fixed-field-patched stream agrees with
dropping from the original stream. -/
theorem patchGzipFixed_drop (data : Bytes) (h : GzipHeader) (hlen : 10 ≤ data.length)
    (k : Nat) :
    (patchGzipFixed data h).drop (11 + k) = data.drop (11 + k) := by
  obtain ⟨b0, b1, b2, b3, b4, b5, b6, b7, b8, b9, rest, rfl⟩ := exists_ten_bytes data hlen
  rw [drop_add_split, drop_add_split]
  rfl

/-- C5 (amended).  On a stream of length at least 10, `patch_gzip_header`
rewrites the flags byte, the little-endian u32 mtime, zeroes XFL and sets
the OS byte; the FEXTRA/FNAME/FCOMMENT logic runs only for blocks whose
flag bit is set in the supplied header: when all three bits are cleared the
rest of the stream is untouched; a set FEXTRA bit inserts the new
length-prefixed block while dropping the two bytes previously at the
insertion offset (field present) or deletes the length-prefixed extent
there (field absent); a set FNAME bit inserts the NUL-terminated name
(field present) or deletes through the first NUL at or after offset 10,
leaving the tail unchanged when there is none (field absent); a set
FCOMMENT bit does the same with the comment.  Since the fixed-field stage
leaves bytes from offset 10 on unchanged, the first NUL of the patched
stream at or after offset 10 is located by `findZeroFrom data 10`. -/
theorem C5_patch_blocks (data : Bytes) (h : GzipHeader) (hlen : 10 ≤ data.length) :
    (h.flags &&& 4 = 0 → h.flags &&& 8 = 0 → h.flags &&& 16 = 0 →
      patch_gzip_header data h =
        data.take 3 ++ [h.flags % 256] ++ leBytes 4 h.mtime ++ [0, h.os % 256] ++
          data.drop 10) ∧
    (∀ e, h.flags &&& 4 ≠ 0 → h.extra = some e → h.flags &&& 8 = 0 → h.flags &&& 16 = 0 →
      patch_gzip_header data h =
        data.take 3 ++ [h.flags % 256] ++ leBytes 4 h.mtime ++ [0, h.os % 256] ++
          leBytes 2 e.length ++ e ++ data.drop 12) ∧
    (h.flags &&& 4 ≠ 0 → h.extra = none → h.flags &&& 8 = 0 → h.flags &&& 16 = 0 →
      patch_gzip_header data h =
        data.take 3 ++ [h.flags % 256] ++ leBytes 4 h.mtime ++ [0, h.os % 256] ++
          data.drop (12 + leNat ((data.drop 10).take 2))) ∧
    (∀ f, h.flags &&& 4 = 0 → h.flags &&& 8 ≠ 0 → h.fname = some f → h.flags &&& 16 = 0 →
      patch_gzip_header data h =
        data.take 3 ++ [h.flags % 256] ++ leBytes 4 h.mtime ++ [0, h.os % 256] ++
          f ++ [0] ++ data.drop 10) ∧
    (∀ e, h.flags &&& 4 = 0 → h.flags &&& 8 ≠ 0 → h.fname = none → h.flags &&& 16 = 0 →
      findZeroFrom data 10 = some e →
      patch_gzip_header data h =
        data.take 3 ++ [h.flags % 256] ++ leBytes 4 h.mtime ++ [0, h.os % 256] ++
          data.drop (e + 1)) ∧
    (h.flags &&& 4 = 0 → h.flags &&& 8 ≠ 0 → h.fname = none → h.flags &&& 16 = 0 →
      findZeroFrom data 10 = none →
      patch_gzip_header data h =
        data.take 3 ++ [h.flags % 256] ++ leBytes 4 h.mtime ++ [0, h.os % 256] ++
          data.drop 10) ∧
    (∀ f, h.flags &&& 4 = 0 → h.flags &&& 8 = 0 → h.flags &&& 16 ≠ 0 → h.fcomment = some f →
      patch_gzip_header data h =
        data.take 3 ++ [h.flags % 256] ++ leBytes 4 h.mtime ++ [0, h.os % 256] ++
          f ++ [0] ++ data.drop 10) ∧
    (∀ e, h.flags &&& 4 = 0 → h.flags &&& 8 = 0 → h.flags &&& 16 ≠ 0 → h.fcomment = none →
      findZeroFrom data 10 = some e →
      patch_gzip_header data h =
        data.take 3 ++ [h.flags % 256] ++ leBytes 4 h.mtime ++ [0, h.os % 256] ++
          data.drop (e + 1)) ∧
    (h.flags &&& 4 = 0 → h.flags &&& 8 = 0 → h.flags &&& 16 ≠ 0 → h.fcomment = none →
      findZeroFrom data 10 = none →
      patch_gzip_header data h =
        data.take 3 ++ [h.flags % 256] ++ leBytes 4 h.mtime ++ [0, h.os % 256] ++
          data.drop 10) := by
  obtain ⟨b0, b1, b2, b3, b4, b5, b6, b7, b8, b9, rest, rfl⟩ := exists_ten_bytes data hlen
  have hlen10 :
      ¬((b0 :: b1 :: b2 :: b3 :: b4 :: b5 :: b6 :: b7 :: b8 :: b9 :: rest).length < 10) := by
    simp only [List.length_cons]
    omega
  refine ⟨?_, ?_, ?_, ?_, ?_, ?_, ?_, ?_, ?_⟩
  · intro h4 h8 h16
    unfold patch_gzip_header
    rw [if_neg hlen10, patchGzipExtra_skip h _ h4, patchGzipName_skip h _ h8,
      patchGzipComment_skip h _ h16]
    rfl
  · intro e h4n he h8 h16
    unfold patch_gzip_header
    rw [if_neg hlen10, patchGzipExtra_insert h _ _ _ h4n he, patchGzipName_skip h _ h8,
      patchGzipComment_skip h _ h16]
    rfl
  · intro h4n he h8 h16
    unfold patch_gzip_header
    rw [if_neg hlen10, patchGzipExtra_delete h _ _ h4n he, patchGzipName_skip h _ h8,
      patchGzipComment_skip h _ h16]
    rw [show (10 : Nat) + 2 = 12 from rfl]
    rw [drop_add_split, drop_add_split]
    rfl
  · intro f h4 h8n hf h16
    unfold patch_gzip_header
    rw [if_neg hlen10, patchGzipExtra_skip h _ h4, patchGzipName_insert h _ _ _ h8n hf,
      patchGzipComment_skip h _ h16]
    rfl
  · intro e h4 h8n hf h16 hz
    have hz' := hz
    unfold findZeroFrom at hz'
    obtain ⟨i, hi, hie⟩ := Option.map_eq_some'.mp hz'
    have hie' : i + 10 = e := hie
    have hidx : e + 1 = 11 + (e - 10) := by omega
    have hz2 := (findZeroFrom_fixed _ h hlen).trans hz
    unfold patch_gzip_header
    rw [if_neg hlen10, patchGzipExtra_skip h _ h4,
      patchGzipName_deleteFound h _ _ _ h8n hf hz2, patchGzipComment_skip h _ h16]
    rw [hidx, ← patchGzipFixed_drop _ h hlen (e - 10)]
    rfl
  · intro h4 h8n hf h16 hz
    have hz2 := (findZeroFrom_fixed _ h hlen).trans hz
    unfold patch_gzip_header
    rw [if_neg hlen10, patchGzipExtra_skip h _ h4,
      patchGzipName_deleteNone h _ _ h8n hf hz2, patchGzipComment_skip h _ h16]
    rfl
  · intro f h4 h8 h16n hcf
    unfold patch_gzip_header
    rw [if_neg hlen10, patchGzipExtra_skip h _ h4, patchGzipName_skip h _ h8,
      patchGzipComment_insert h _ _ _ h16n hcf]
    rfl
  · intro e h4 h8 h16n hcf hz
    have hz' := hz
    unfold findZeroFrom at hz'
    obtain ⟨i, hi, hie⟩ := Option.map_eq_some'.mp hz'
    have hie' : i + 10 = e := hie
    have hidx : e + 1 = 11 + (e - 10) := by omega
    have hz2 := (findZeroFrom_fixed _ h hlen).trans hz
    unfold patch_gzip_header
    rw [if_neg hlen10, patchGzipExtra_skip h _ h4, patchGzipName_skip h _ h8,
      patchGzipComment_deleteFound h _ _ _ h16n hcf hz2]
    rw [hidx, ← patchGzipFixed_drop _ h hlen (e - 10)]
    rfl
  · intro h4 h8 h16n hcf hz
    have hz2 := (findZeroFrom_fixed _ h hlen).trans hz
    unfold patch_gzip_header
    rw [if_neg hlen10, patchGzipExtra_skip h _ h4, patchGzipName_skip h _ h8,
      patchGzipComment_deleteNone h _ _ h16n hcf hz2]
    rfl

/-- A header with only the FCOMMENT bit set and no comment value, for the
delete case of the C5 witness. -/
def gzHdrComDel : GzipHeader := { mtime := 0, os := 3, flags := 16 }

/-- C5 witness: patching `gzDataEx` with the all-cleared header rewrites the
fixed fields and leaves the stream tail (including the old FEXTRA block)
unchanged; patching it with a comment-less FCOMMENT header also deletes
through the first NUL after offset 10 (at offset 11). -/
theorem C5_patch_blocks_witness :
    (patch_gzip_header gzDataEx gzHdrEx =
      gzDataEx.take 3 ++ [gzHdrEx.flags % 256] ++ leBytes 4 gzHdrEx.mtime ++
        [0, gzHdrEx.os % 256] ++ gzDataEx.drop 10) ∧
    (patch_gzip_header gzDataEx gzHdrComDel =
      gzDataEx.take 3 ++ [gzHdrComDel.flags % 256] ++ leBytes 4 gzHdrComDel.mtime ++
        [0, gzHdrComDel.os % 256] ++ gzDataEx.drop (11 + 1)) :=
  ⟨(C5_patch_blocks gzDataEx gzHdrEx (by decide)).1 (by decide) (by decide) (by decide),
   (C5_patch_blocks gzDataEx gzHdrComDel (by decide)).2.2.2.2.2.2.2.1 11 (by decide)
     (by decide) (by decide) rfl (by decide)⟩

end TCR
